import Mathlib

/-!
# Verification of the business-permit verification pipeline

Shallow embedding of `project/backend/image_verification.py` and
`project/backend/permit_feature_extractor.py`.

Modelling conventions:
* Python `float` is modelled as `ℚ` (exact rational arithmetic).
* Python strings are modelled as `String` / `List Char`; the string
  helpers below mirror the CPython semantics of the operations the
  source uses (`str.lower`, `str.strip`, `re.sub` on the concrete
  patterns appearing in the source) for ASCII text.
* External collaborators (OpenCV image decoding, the ML model, pyzbar,
  Tesseract, the DTI HTTP fetch, fuzzywuzzy's `token_set_ratio`) are
  modelled as oracle inputs gathered in an `Env` record; the pipeline
  itself is a pure function of those oracles.
-/

namespace Permit

/-- Python `\s` whitespace on ASCII (space, tab, newline, CR, VT, FF). -/
def isPyWS (c : Char) : Bool :=
  c = ' ' || c = '\t' || c = '\n' || c = '\x0d' || c = '\x0b' || c = '\x0c'

/-- Python `\w` word character on ASCII: alphanumeric or underscore. -/
def isWordChar (c : Char) : Bool := c.isAlphanum || c = '_'

/-- `str.lower()` on ASCII text. -/
def lowerL (s : List Char) : List Char := s.map Char.toLower

/-- Drop trailing whitespace (the right half of `str.strip()`). -/
def dropTrailWS : List Char → List Char
  | [] => []
  | c :: rest =>
    let r := dropTrailWS rest
    if r = [] && isPyWS c then [] else c :: r

/-- `str.strip()`: drop leading and trailing whitespace. -/
def stripL (s : List Char) : List Char := dropTrailWS (s.dropWhile isPyWS)

/-- `re.sub(r'\s+', ' ', s)`: collapse each maximal whitespace run to one space. -/
def collapseWS : List Char → List Char
  | [] => []
  | [c] => if isPyWS c then [' '] else [c]
  | c :: d :: rest =>
    if isPyWS c && isPyWS d then collapseWS (d :: rest)
    else (if isPyWS c then ' ' else c) :: collapseWS (d :: rest)

/-- `re.sub(r'[^a-z0-9\s]', '', s)`: keep lowercase letters, digits, whitespace. -/
def keepAlnumWS (s : List Char) : List Char :=
  s.filter (fun c => ('a' ≤ c && c ≤ 'z') || c.isDigit || isPyWS c)

/-- Does the previous character (`none` at string start) allow a `\b`
boundary before a word character? -/
def wordBound (prev : Option Char) : Bool :=
  match prev with
  | none => true
  | some c => !isWordChar c

/-- Is there a `\b` boundary after `w` when it is a prefix of `s`
(i.e. the character of `s` just past `w`, if any, is not a word char)? -/
def tailBound (w s : List Char) : Bool :=
  match s.drop w.length with
  | [] => true
  | d :: _ => !isWordChar d

/-- Scanner for `re.sub(rf'\b{w}\b', '', s)` for a literal all-word-char
pattern `w`: left-to-right, leftmost-match, the match is deleted and
scanning resumes after it.  `prev` is the previous character of the
original string, `skip` counts characters of a found match still to be
consumed. -/
def subWordGo (w : List Char) : Option Char → Nat → List Char → List Char
  | _, _, [] => []
  | _, Nat.succ k, c :: rest => subWordGo w (some c) k rest
  | prev, 0, c :: rest =>
    if wordBound prev && w.isPrefixOf (c :: rest) && tailBound w (c :: rest) then
      subWordGo w (some c) (w.length - 1) rest
    else c :: subWordGo w (some c) 0 rest

/-- `re.sub(rf'\b{w}\b', '', s)` for the concrete suffix words of the
source (all nonempty and made of word characters). -/
def subWord (w s : List Char) : List Char :=
  if w = [] then s else subWordGo w none 0 s

/-- The generic business-suffix words stripped by `_normalize_name`,
in the source's iteration order. -/
def SUFFIXES : List (List Char) :=
  ["trading".data, "enterprises".data, "enterprise".data, "farm".data, "farms".data,
   "agri".data, "agricultural".data, "products".data, "store".data, "shop".data]

/-- The suffix-stripping loop of `_normalize_name`. -/
def removeSuffixWords (s : List Char) : List Char :=
  SUFFIXES.foldl (fun acc w => subWord w acc) s

/-- `_normalize_name` on character lists: lowercase+strip, remove the
generic suffix words with `\b` boundaries, drop non-`[a-z0-9\s]`
characters, collapse whitespace, strip. -/
def normalizeNameL (s : List Char) : List Char :=
  if s = [] then []
  else stripL (collapseWS (keepAlnumWS (removeSuffixWords (stripL (lowerL s)))))

/-- `ImageVerificationSystem._normalize_name`. -/
def normalize_name (s : String) : String := ⟨normalizeNameL s.data⟩

/-! ## difflib.SequenceMatcher (no junk, short strings)

`_name_similarity` falls back to `SequenceMatcher(None, a, b).ratio()`.
We embed the Ratcliff/Obershelp computation difflib performs for short
strings (no junk, autojunk inactive below 200 characters): repeatedly
take the longest matching block — ties resolved to the earliest start in
`a`, then the earliest start in `b` — and recurse on both sides. -/

/-- Length of the longest common prefix of two character lists. -/
def commonPrefixLen : List Char → List Char → Nat
  | a :: as, b :: bs => if a = b then commonPrefixLen as bs + 1 else 0
  | _, _ => 0

/-- `find_longest_match` over whole strings: the longest block `(i, j, k)`
with `a.drop i` and `b.drop j` sharing a length-`k` prefix, maximising
`k`, then minimising `i`, then `j` (difflib's tie-breaking). -/
def longestMatch (a b : List Char) : Nat × Nat × Nat :=
  (List.range a.length).foldl
    (fun best i =>
      (List.range b.length).foldl
        (fun best j =>
          let k := commonPrefixLen (a.drop i) (b.drop j)
          if best.2.2 < k then (i, j, k) else best)
        best)
    (0, 0, 0)

/-- Total size of `get_matching_blocks`: recurse around the longest
match.  The fuel argument is `a.length + b.length` at the top call;
every recursive call strictly shrinks both sides of the problem, so the
fuel never runs out. -/
def matchingTotalFuel : Nat → List Char → List Char → Nat
  | 0, _, _ => 0
  | fuel + 1, a, b =>
    let m := longestMatch a b
    let i := m.1; let j := m.2.1; let k := m.2.2
    if k = 0 then 0
    else
      matchingTotalFuel fuel (a.take i) (b.take j) + k +
        matchingTotalFuel fuel (a.drop (i + k)) (b.drop (j + k))

/-- Total matched size over all matching blocks. -/
def matchingTotal (a b : List Char) : Nat :=
  matchingTotalFuel (a.length + b.length) a b

/-- `SequenceMatcher(None, a, b).ratio()`:
`2 * M / (len a + len b)`, and `1.0` when both are empty. -/
def ratioQ (a b : List Char) : ℚ :=
  if a.length + b.length = 0 then 1
  else 2 * (matchingTotal a b : ℚ) / ((a.length : ℚ) + (b.length : ℚ))

/-- Is `needle` a contiguous substring of `hay` (Python `in`)? -/
def isSubL (needle hay : List Char) : Bool :=
  needle.isPrefixOf hay ||
    match hay with
    | [] => false
    | _ :: t => isSubL needle t

/-- `ImageVerificationSystem._name_similarity` on character lists. -/
def nameSimilarityL (name_a name_b : List Char) : ℚ :=
  if name_a = [] || name_b = [] then 0
  else
    let a := normalizeNameL name_a
    let b := normalizeNameL name_b
    if a = [] || b = [] then 0
    else if a = b then 1
    else if isSubL a b || isSubL b a then 9/10
    else ratioQ a b

/-- `ImageVerificationSystem._name_similarity`. -/
def name_similarity (a b : String) : ℚ := nameSimilarityL a.data b.data

/-! ## Small Python helpers shared by several functions -/

/-- Python truthiness of an optional string (`None` and `''` are falsy). -/
def truthy : Option String → Bool
  | none => false
  | some s => !s.isEmpty

/-- Unwrap an optional string known to be truthy (default irrelevant). -/
def optStrD (o : Option String) : String := o.getD ""

/-- How Python's f-string prints an optional value (`None` for absent). -/
def pyShowOpt : Option String → String
  | none => "None"
  | some s => s

/-- Python `a or b` on optional strings: `a` if truthy, else `b`. -/
def pyOrOpt (a b : Option String) : Option String := if truthy a then a else b

/-- Python `a or 'N/A'` on an optional string. -/
def pyOrNA (a : Option String) : String := if truthy a then optStrD a else "N/A"

/-- `str.strip()` on `String`. -/
def stripS (s : String) : String := ⟨stripL s.data⟩

/-- `str.lower()` on `String` (ASCII). -/
def lowerS (s : String) : String := ⟨lowerL s.data⟩

/-- Drop trailing characters satisfying `p` (used by `rstrip`). -/
def dropTrailIf (p : Char → Bool) : List Char → List Char
  | [] => []
  | c :: rest =>
    let r := dropTrailIf p rest
    if r = [] && p c then [] else c :: r

/-- Round to the nearest integer, ties to even (Python `round`/`format`). -/
def roundTE (q : ℚ) : ℤ :=
  let f := ⌊q⌋
  if q - f < 1/2 then f
  else if (1 : ℚ)/2 < q - f then f + 1
  else if f % 2 = 0 then f else f + 1

/-- Python `round(q, 3)` under the exact-rational model. -/
def pyRound3 (q : ℚ) : ℚ := (roundTE (q * 1000) : ℚ) / 1000

/-- Python `f"{q:.0%}"`. -/
def fmtPercent (q : ℚ) : String := toString (roundTE (q * 100)) ++ "%"

/-- Python `f"{q:.0f}"`. -/
def fmtF0 (q : ℚ) : String := toString (roundTE q)

/-- Substring up to (excluding) the first occurrence of any stop char. -/
def takeUntilAny (stops : List Char) (s : List Char) : List Char :=
  s.takeWhile (fun c => !(stops.contains c))

/-- Remainder after the first occurrence of `sep` (empty if absent);
models `s.split(sep, 1)[1]` where the separator is known to occur. -/
def afterChar (sep : Char) : List Char → List Char
  | [] => []
  | c :: rest => if c = sep then rest else afterChar sep rest

/-- Remainder after the first occurrence of the pattern `pat`. -/
def afterSeq (pat : List Char) : List Char → Option (List Char)
  | [] => none
  | s@(_ :: t) => if pat.isPrefixOf s then some (s.drop pat.length) else afterSeq pat t

/-! ## Name cross-verification (`cross_check_names`) -/

/-- Minimum similarity for fuzzy name matching. -/
def NAME_MATCH_THRESHOLD : ℚ := 65/100

/-- Result of `cross_check_names` (`None` match fields model fields the
source leaves at `None` when a pair is not comparable). -/
structure NameCheck where
  business_name_match : Option Bool
  owner_name_match : Option Bool
  business_name_similarity : ℚ
  owner_name_similarity : ℚ
  overall_match : Bool
  score : ℚ
  details : String
deriving Repr, DecidableEq

/-- `ImageVerificationSystem.cross_check_names`. -/
def cross_check_names (user_business_name user_owner_name
    dti_business_name dti_owner_name : Option String) : NameCheck :=
  let bizBoth := truthy user_business_name && truthy dti_business_name
  let bizSim := name_similarity (optStrD user_business_name) (optStrD dti_business_name)
  let bizDetails : String :=
    if bizBoth then
      if NAME_MATCH_THRESHOLD ≤ bizSim then
        "Business name matches (" ++ fmtPercent bizSim ++ "): '" ++
          optStrD user_business_name ++ "' ~ '" ++ optStrD dti_business_name ++ "'. "
      else
        "Business name MISMATCH (" ++ fmtPercent bizSim ++ "): you entered '" ++
          optStrD user_business_name ++ "' but DTI shows '" ++ optStrD dti_business_name ++ "'. "
    else if truthy user_business_name && !truthy dti_business_name then
      "Could not extract business name from DTI for comparison. "
    else ""
  let ownBoth := truthy user_owner_name && truthy dti_owner_name
  let ownSim := name_similarity (optStrD user_owner_name) (optStrD dti_owner_name)
  let ownDetails : String :=
    if ownBoth then
      if NAME_MATCH_THRESHOLD ≤ ownSim then
        "Owner name matches (" ++ fmtPercent ownSim ++ "): '" ++
          optStrD user_owner_name ++ "' ~ '" ++ optStrD dti_owner_name ++ "'. "
      else
        "Owner name MISMATCH (" ++ fmtPercent ownSim ++ "): you entered '" ++
          optStrD user_owner_name ++ "' but DTI shows '" ++ optStrD dti_owner_name ++ "'. "
    else if truthy user_owner_name && !truthy dti_owner_name then
      "Could not extract owner name from DTI for comparison. "
    else ""
  let checksDone : Nat := (cond bizBoth 1 0) + (cond ownBoth 1 0)
  let totalScore : ℚ := (cond bizBoth bizSim 0) + (cond ownBoth ownSim 0)
  if 0 < checksDone then
    let score := pyRound3 (totalScore / (checksDone : ℚ))
    { business_name_match := if bizBoth then some (decide (NAME_MATCH_THRESHOLD ≤ bizSim)) else none
      owner_name_match := if ownBoth then some (decide (NAME_MATCH_THRESHOLD ≤ ownSim)) else none
      business_name_similarity := if bizBoth then pyRound3 bizSim else 0
      owner_name_similarity := if ownBoth then pyRound3 ownSim else 0
      overall_match := decide (NAME_MATCH_THRESHOLD ≤ score)
      score := score
      details := bizDetails ++ ownDetails }
  else
    { business_name_match := none
      owner_name_match := none
      business_name_similarity := 0
      owner_name_similarity := 0
      overall_match := true
      score := 1/2
      details := bizDetails ++ ownDetails ++ "No DTI name data available for cross-check. " }

/-! ## Image quality gate (`check_image_quality`)

OpenCV decoding is external: an image is modelled by its decoded
dimensions, Laplacian variance and mean grayscale brightness (`none`
when `cv2.imread` fails). -/

/-- The decoded-image observations the quality gate inspects. -/
structure RawImage where
  height : Nat
  width : Nat
  lapVar : ℚ
  brightness : ℚ
deriving Repr, DecidableEq

/-- `ImageVerificationSystem.check_image_quality`. -/
def check_image_quality : Option RawImage → Bool × String
  | none => (false, "Invalid image file")
  | some img =>
    if img.height < 200 || img.width < 200 then
      (false, "Image too small (" ++ toString img.width ++ "×" ++ toString img.height ++
        "). Please upload at least 400×300.")
    else if img.lapVar < 30 then
      (false, "Image is too blurry (clarity " ++ fmtF0 img.lapVar ++
        "/30+). Please take a clearer photo of the QR code on your permit.")
    else if img.brightness < 30 || 230 < img.brightness then
      (false, "Image brightness is poor (" ++ fmtF0 img.brightness ++
        "). Ensure good lighting when photographing the permit.")
    else (true, "Image quality OK")

/-! ## Feature vector (`permit_feature_extractor.py`) -/

/-- `FEATURE_NAMES`: the fixed, deterministic feature order. -/
def FEATURE_NAMES : List String :=
  ["blur_score", "brightness", "contrast", "image_area",
   "width", "height", "aspect_ratio",
   "num_contours", "max_contour_area", "avg_contour_area", "edge_density",
   "text_pixel_ratio", "horizontal_line_ratio", "text_region_count",
   "color_variance", "hue_entropy", "saturation_entropy", "value_entropy",
   "edge_density_sobel", "corner_count", "edge_magnitude_mean",
   "has_qr_code", "qr_area_ratio",
   "lbp_mean", "lbp_std", "glcm_contrast", "glcm_homogeneity"]

/-- `PermitFeatureExtractor.features_to_vector`: the feature dict is a
partial map from names to numeric values; absent keys become `0`. -/
def features_to_vector (d : String → Option ℚ) : List ℚ :=
  FEATURE_NAMES.map (fun k => (d k).getD 0)

/-! ## QR/OCR text field parsing -/

/-- The structured fields extracted from QR payload text or OCR text
(the QR variant also carries the raw text, which nothing downstream
reads and which we keep out of the comparison record). -/
structure ParsedFields where
  business_name : Option String
  business_owner : Option String
  validity_date : Option String
  business_number : Option String
  scope : Option String
deriving Repr, DecidableEq

/-- All fields absent. -/
def ParsedFields.empty : ParsedFields := ⟨none, none, none, none, none⟩

/-- Is `needle` a substring of `hay` (`needle in hay` on upper-cased
Python strings)? -/
def containsSub (hay needle : String) : Bool := isSubL needle.data hay.data

/-- One line of `_parse_qr_text`'s loop. -/
def parseQrLine (f : ParsedFields) (line0 : String) : ParsedFields :=
  let line := stripS line0
  if line.isEmpty then f
  else
    let u := line.toUpper
    let value := stripS ⟨afterChar ':' line.data⟩
    if u.startsWith "BUSINESS NAME:" && !containsSub u "NO." then
      { f with business_name := some value }
    else if u.startsWith "BUSINESS OWNER:" then
      { f with business_owner := some value }
    else if u.startsWith "VALIDITY DATE:" then
      { f with validity_date := some value }
    else if u.startsWith "BUSINESS NAME NO.:" || u.startsWith "BUSINESS NO.:" then
      { f with business_number := some value }
    else if u.startsWith "SCOPE:" then
      { f with scope := some value }
    else f

/-- `ImageVerificationSystem._parse_qr_text`. -/
def parse_qr_text (qr_text : String) : ParsedFields :=
  (qr_text.splitOn "\n").foldl parseQrLine ParsedFields.empty

/-- One line of `_extract_permit_text_details`'s loop. -/
def parsePermitLine (f : ParsedFields) (line0 : String) : ParsedFields :=
  let line := stripS line0
  if line.isEmpty then f
  else
    let u := line.toUpper
    let hasColon := line.data.contains ':'
    let value := stripS ⟨afterChar ':' line.data⟩
    if containsSub u "BUSINESS NAME" && !containsSub u "NO." then
      if hasColon && !value.isEmpty && 2 < value.length then
        { f with business_name := some value } else f
    else if containsSub u "OWNER" || containsSub u "PROPRIETOR" then
      if hasColon && !value.isEmpty && 2 < value.length then
        { f with business_owner := some value } else f
    else if containsSub u "VALIDITY" || containsSub u "VALID" || containsSub u "EXPIRES" then
      if hasColon && !value.isEmpty && 4 < value.length then
        { f with validity_date := some value } else f
    else if containsSub u "BUSINESS" &&
        (containsSub u "NO" || containsSub u "NUMBER" || containsSub u "REGISTRATION") then
      if hasColon && !value.isEmpty && 2 < value.length then
        { f with business_number := some value } else f
    else if containsSub u "SCOPE" then
      if hasColon && !value.isEmpty && 2 < value.length then
        { f with scope := some value } else f
    else f

/-- `ImageVerificationSystem._extract_permit_text_details`. -/
def extract_permit_text_details (ocr_text : String) : ParsedFields :=
  (ocr_text.splitOn "\n").foldl parsePermitLine ParsedFields.empty

/-! ## QR-vs-OCR field comparison (`_compare_permit_fields`)

`fuzz.token_set_ratio` is an external library returning a score in
`[0, 100]`; it enters as the oracle `scorer`. -/

/-- Result of `_compare_permit_fields` / `_compare_fields_simple`. -/
structure TextComparison where
  business_name_match : Bool
  business_owner_match : Bool
  validity_date_match : Bool
  business_number_match : Bool
  scope_match : Bool
  details : String
  mismatches : List String
  confidence : ℚ
deriving Repr, DecidableEq

/-- `ImageVerificationSystem._compare_permit_fields` (fuzzywuzzy
available). -/
def compare_permit_fields (scorer : String → String → ℚ)
    (qr pf : ParsedFields) (threshold : ℚ) : TextComparison :=
  let bizBoth := truthy qr.business_name && truthy pf.business_name
  let bizSim := scorer (stripS (lowerS (optStrD qr.business_name)))
                       (stripS (lowerS (optStrD pf.business_name))) / 100
  let bizOk := bizBoth && decide (threshold ≤ bizSim)
  let ownBoth := truthy qr.business_owner && truthy pf.business_owner
  let ownSim := scorer (stripS (lowerS (optStrD qr.business_owner)))
                       (stripS (lowerS (optStrD pf.business_owner))) / 100
  let ownOk := ownBoth && decide (threshold ≤ ownSim)
  let numBoth := truthy qr.business_number && truthy pf.business_number
  let qrNum := stripS (optStrD qr.business_number)
  let pfNum := stripS (optStrD pf.business_number)
  let numOk := numBoth && (qrNum == pfNum)
  let datBoth := truthy qr.validity_date && truthy pf.validity_date
  let qrDate := stripS (lowerS (optStrD qr.validity_date))
  let pfDate := stripS (lowerS (optStrD pf.validity_date))
  let datSim := scorer qrDate pfDate / 100
  let datOk := datBoth && decide ((80 : ℚ)/100 ≤ datSim)
  let checked : Nat :=
    (cond bizBoth 1 0) + (cond ownBoth 1 0) + (cond numBoth 1 0) + (cond datBoth 1 0)
  let nMatches : Nat :=
    (cond bizOk 1 0) + (cond ownOk 1 0) + (cond numOk 1 0) + (cond datOk 1 0)
  { business_name_match := bizOk
    business_owner_match := ownOk
    validity_date_match := datOk
    business_number_match := numOk
    scope_match := false
    details :=
      (cond bizOk ("✓ Business name matches (" ++ fmtPercent bizSim ++ "). ") "") ++
      (cond ownOk ("✓ Owner name matches (" ++ fmtPercent ownSim ++ "). ") "") ++
      (cond numOk ("✓ Business number matches (" ++ qrNum ++ "). ") "") ++
      (cond datOk ("✓ Validity date matches (" ++ fmtPercent datSim ++ "). ") "")
    mismatches :=
      (if bizBoth && !bizOk then
        ["Business name mismatch (" ++ fmtPercent bizSim ++ "): QR='" ++
          optStrD qr.business_name ++ "' vs Permit='" ++ optStrD pf.business_name ++ "'"]
       else []) ++
      (if ownBoth && !ownOk then
        ["Owner mismatch (" ++ fmtPercent ownSim ++ "): QR='" ++
          optStrD qr.business_owner ++ "' vs Permit='" ++ optStrD pf.business_owner ++ "'"]
       else []) ++
      (if numBoth && !numOk then
        ["Business number mismatch: QR='" ++ qrNum ++ "' vs Permit='" ++ pfNum ++ "'"]
       else []) ++
      (if datBoth && !datOk then
        ["Validity date mismatch (" ++ fmtPercent datSim ++ "): QR='" ++ qrDate ++
          "' vs Permit='" ++ pfDate ++ "'"]
       else [])
    confidence := if 0 < checked then (nMatches : ℚ) / (checked : ℚ) else 0 }

/-- `ImageVerificationSystem._compare_fields_simple` (fuzzywuzzy
unavailable). -/
def compare_fields_simple (qr pf : ParsedFields) : TextComparison :=
  let bizBoth := truthy qr.business_name && truthy pf.business_name
  let q := lowerS (optStrD qr.business_name)
  let p := lowerS (optStrD pf.business_name)
  let bizOk := bizBoth && (isSubL q.data p.data || isSubL p.data q.data)
  let numBoth := truthy qr.business_number && truthy pf.business_number
  let numOk := numBoth && (optStrD qr.business_number == optStrD pf.business_number)
  let checked : Nat := (cond bizBoth 1 0) + (cond numBoth 1 0)
  let nMatches : Nat := (cond bizOk 1 0) + (cond numOk 1 0)
  { business_name_match := bizOk
    business_owner_match := false
    validity_date_match := false
    business_number_match := numOk
    scope_match := false
    details := ""
    mismatches := []
    confidence := if 0 < checked then (nMatches : ℚ) / (checked : ℚ) else 0 }

/-- The dispatch at the top of `_compare_permit_fields`. -/
def compare_fields_dispatch (fuzzyAvailable : Bool) (scorer : String → String → ℚ)
    (qr pf : ParsedFields) (threshold : ℚ) : TextComparison :=
  if fuzzyAvailable then compare_permit_fields scorer qr pf threshold
  else compare_fields_simple qr pf

/-! ## DTI URL recognition (`is_dti_url`, `extract_business_info_from_url`)

The netloc/query/path extraction models `urllib.parse.urlparse` for the
URL shapes the pipeline sees. -/

/-- Known DTI / BNRS domains. -/
def DTI_DOMAINS : List String :=
  ["bnrs.dti.gov.ph", "www.bnrs.dti.gov.ph", "dti.gov.ph", "www.dti.gov.ph"]

/-- `urlparse(url).netloc`. -/
def urlNetloc (url : String) : String :=
  let s := takeUntilAny ['#'] url.data
  match afterSeq "://".data s with
  | some rest => ⟨takeUntilAny ['/', '?', '#'] rest⟩
  | none =>
    if "//".data.isPrefixOf s then ⟨takeUntilAny ['/', '?', '#'] (s.drop 2)⟩ else ""

/-- `urlparse(url).query`. -/
def urlQuery (url : String) : String :=
  ⟨afterChar '?' (takeUntilAny ['#'] url.data)⟩

/-- `urlparse(url).path`. -/
def urlPath (url : String) : String :=
  let s := takeUntilAny ['?'] (takeUntilAny ['#'] url.data)
  match afterSeq "://".data s with
  | some rest => ⟨rest.drop (takeUntilAny ['/', '?', '#'] rest).length⟩
  | none =>
    if "//".data.isPrefixOf s then
      ⟨(s.drop 2).drop (takeUntilAny ['/', '?', '#'] (s.drop 2)).length⟩
    else ⟨s⟩

/-- `ImageVerificationSystem.is_dti_url` (domain allow-list plus the
three anchored case-insensitive URL patterns). -/
def is_dti_url (url : String) : Bool :=
  let domain : String := ⟨dropTrailIf (· = '.') (lowerS (urlNetloc url)).data⟩
  DTI_DOMAINS.contains domain ||
    (let l := lowerS url
     l.startsWith "http://bnrs.dti.gov.ph" || l.startsWith "https://bnrs.dti.gov.ph" ||
     l.startsWith "http://www.bnrs.dti.gov.ph" || l.startsWith "https://www.bnrs.dti.gov.ph" ||
     l.startsWith "http://dti.gov.ph" || l.startsWith "https://dti.gov.ph" ||
     l.startsWith "http://www.dti.gov.ph" || l.startsWith "https://www.dti.gov.ph")

/-- The business details embedded in the QR URL (the source's dict keys
become optional fields; an empty `path_segments` list models the absent
key). -/
structure BusinessInfo where
  url : String
  registration_id : Option String
  business_name : Option String
  registration_number : Option String
  owner_name : Option String
  path_segments : List String
deriving Repr, DecidableEq

/-- `ImageVerificationSystem.extract_business_info_from_url`. -/
def extract_business_info_from_url (url : String) : BusinessInfo :=
  let params : List (String × String) :=
    ((urlQuery url).splitOn "&").filterMap (fun p =>
      if p.data.contains '=' then
        some (⟨takeUntilAny ['='] p.data⟩, ⟨afterChar '=' p.data⟩)
      else none)
  let look : String → Option String := fun k => params.reverse.lookup k
  let path := ⟨dropTrailIf (· = '/') ((urlPath url).data.dropWhile (· = '/'))⟩
  { url := url
    registration_id := look "id"
    business_name := look "bn"
    registration_number := look "reg"
    owner_name := none
    path_segments := ((path : String).splitOn "/").filter (fun p => !p.isEmpty) }

end Permit

namespace Permit

/-! ## The verification orchestrator (`verify_permit_image`)

External stages are oracles collected in `Env`:
* `image` — what `cv2.imread` sees (quality gate inputs);
* `ml` — the result of `predict_permit_ml` (the model is external);
* `qr` — the result of `scan_qr_code` (`data` is the decoded payload on
  success, the scan failure message on failure, exactly as the source's
  tuple);
* `ocr_ok`/`ocr_text` — `_extract_text_with_ocr` (called twice on the
  same path in the source; being deterministic it yields one value);
* `dti_ok`/`dti` — `validate_with_dti` (one HTTP fetch);
* `fuzzyAvailable`/`tokenSetRatio` — the fuzzywuzzy library.
The orchestrator also returns the ordered list of stage invocations it
performed, which makes "never invokes X" observable. -/

/-- `predict_permit_ml`'s result dict. -/
structure MLResult where
  available : Bool
  is_permit : Bool
  confidence : ℚ
  label : String
deriving Repr, DecidableEq

/-- `scan_qr_code`'s result tuple. -/
structure QRScan where
  ok : Bool
  data : String
  method : String
deriving Repr, DecidableEq

/-- `validate_with_dti`'s details dict. -/
structure DTIDetails where
  url_checked : String
  reachable : Bool
  dti_confirmed : Bool
  business_name : Option String
  owner_name : Option String
  registration_number : Option String
  status : Option String
  message : String
  http_status : Option Nat
deriving Repr, DecidableEq

/-- The oracle inputs of one verification call. -/
structure Env where
  image : Option RawImage
  ml : MLResult
  qr : QRScan
  ocr_ok : Bool
  ocr_text : String
  dti_ok : Bool
  dti : DTIDetails
  fuzzyAvailable : Bool
  tokenSetRatio : String → String → ℚ

/-- Observable stage invocations, in call order. -/
inductive Eff where
  | quality
  | mlPredict
  | qrScan
  | ocr
  | dtiFetch
deriving Repr, DecidableEq

/-- A sub-check record (`quality_check` / `qr_scan` entries). -/
structure StageCheck where
  passed : Bool
  message : String
deriving Repr, DecidableEq

/-- `results['qr_scan']`. -/
structure QRScanInfo where
  passed : Bool
  message : String
  method : String
deriving Repr, DecidableEq

/-- `results['permit_validation']`: the optional dict keys
(`name_mismatch`, `pending_manual_review`, `name_check_details`,
`mismatches`) are modelled as fields whose default value means "key
absent". -/
structure PermitValidation where
  passed : Bool
  message : String
  name_mismatch : Bool
  pending_manual_review : Bool
  name_check_details : Option String
  mismatches : List String
deriving Repr, DecidableEq

/-- The root `results` dict of `verify_permit_image` (`timestamp` is
wall-clock time and is omitted from the model). -/
structure VerificationResult where
  valid : Bool
  confidence : ℚ
  quality_check : Option StageCheck
  ml_prediction : Option MLResult
  qr_scan : Option QRScanInfo
  qr_data : Option String
  dti_url_valid : Bool
  dti_validation : Option DTIDetails
  business_info : Option BusinessInfo
  name_verification : Option NameCheck
  text_verification : Option TextComparison
  extracted_text : String
  file_path : String
  permit_validation : PermitValidation
deriving Repr, DecidableEq

/-- An empty `permit_validation` entry. -/
def PermitValidation.init : PermitValidation :=
  { passed := false, message := "", name_mismatch := false,
    pending_manual_review := false, name_check_details := none, mismatches := [] }

/-- Positional constructor for `permit_validation` entries. -/
def mkPV (passed : Bool) (message : String)
    (name_mismatch pending_manual_review : Bool)
    (name_check_details : Option String) (mismatches : List String) : PermitValidation :=
  { passed := passed, message := message, name_mismatch := name_mismatch,
    pending_manual_review := pending_manual_review,
    name_check_details := name_check_details, mismatches := mismatches }

/-- The decision section of `verify_permit_image` for a DTI-URL QR once
the registry validation and name cross-check results are in
(`if dti_valid: ... else: ...`).  `base` is the results dict as filled so
far; `binfo` the URL-extracted business info. -/
def dtiDecision (ml : MLResult) (base : VerificationResult) (binfo : BusinessInfo)
    (dti_valid : Bool) (dti_details : DTIDetails) (name_check : NameCheck)
    (trace2 : List Eff) : VerificationResult × List Eff :=
  if dti_valid then
    -- accept path shared by the matched and neutral name outcomes
    let accept : ℚ → VerificationResult × List Eff := fun bc0 =>
      let bc := if ml.available && ml.is_permit then
          min (99/100) (bc0 + ml.confidence * (4/100))
        else bc0
      let binfo2 :=
        { binfo with
          business_name := if truthy dti_details.business_name then
              dti_details.business_name else binfo.business_name
          owner_name := if truthy dti_details.owner_name then
              dti_details.owner_name else binfo.owner_name
          registration_number := if truthy dti_details.registration_number then
              dti_details.registration_number else binfo.registration_number }
      let pv := mkPV true
        ("QR code verified against DTI BNRS. Business: " ++
          pyShowOpt dti_details.business_name ++ ". Owner: " ++
          pyShowOpt dti_details.owner_name ++ ". Reg #: " ++
          pyShowOpt dti_details.registration_number ++ ".")
        false false
        (if !name_check.details.isEmpty then some name_check.details else none) []
      let out :=
        { base with
          valid := true, confidence := bc,
          business_info := some binfo2, permit_validation := pv }
      (out, trace2)
    if name_check.overall_match then
      accept (9/10 + 5/100)
    else if decide (name_check.score < 4/10) &&
        (truthy dti_details.business_name || truthy dti_details.owner_name) then
      let pv := mkPV false
        ("DTI QR code is valid, but the names you provided " ++
          "do not match DTI records. " ++ name_check.details ++
          "Please ensure you entered the exact names from your permit.")
        true false none []
      let out :=
        { base with
          confidence := 9/10 - 2/10, permit_validation := pv }
      (out, trace2)
    else
      accept (9/10)
  else
    if !dti_details.reachable then
      -- DTI unreachable — use ML as tiebreaker
      if ml.available && ml.is_permit && decide ((7 : ℚ)/10 < ml.confidence) then
        let pv := mkPV true
          ("DTI server unreachable, but QR URL is valid and " ++
            "ML classifier confirms permit (confidence: " ++
            fmtPercent ml.confidence ++ ").")
          false false none []
        let out :=
          { base with
            valid := true, confidence := 75/100, permit_validation := pv }
        (out, trace2)
      else
        let pv := mkPV false dti_details.message false true none []
        let out :=
          { base with
            confidence := 1/2, permit_validation := pv }
        (out, trace2)
    else
      let pv := mkPV false dti_details.message false false none []
      let out :=
        { base with
          confidence := 4/10, permit_validation := pv }
      (out, trace2)

/-- The decision section of `verify_permit_image` for a non-DTI text QR
once the text comparison and name cross-check are in. -/
def textQrDecision (ml : MLResult) (base : VerificationResult)
    (text_comparison : TextComparison) (name_check : NameCheck)
    (qr_extracted_business qr_extracted_owner : Option String)
    (trace2 : List Eff) : VerificationResult × List Eff :=
  let text_conf := text_comparison.confidence
  let name_conf := name_check.score
  let ml_conf := if ml.available then ml.confidence else 1/2
  -- Weighted average: 40% text match, 40% name match, 20% ML confidence
  let base_confidence := text_conf * (4/10) + name_conf * (4/10) + ml_conf * (2/10)
  if ml.available && ml.is_permit then
    if decide ((65 : ℚ)/100 < base_confidence) then
      let pv := mkPV true
        ("QR code verified. Business information matches permit. " ++
          "QR Text: " ++ pyOrNA qr_extracted_business ++ ". Owner: " ++
          pyOrNA qr_extracted_owner ++ ". Confidence: " ++
          fmtPercent base_confidence)
        false false
        (if !name_check.details.isEmpty then some name_check.details else none) []
      let out :=
        { base with
          valid := true, confidence := min (95/100) base_confidence,
          permit_validation := pv }
      (out, trace2)
    else
      let pv := mkPV false
        ("QR code business information does not sufficiently match " ++
          "the permit and your provided information. " ++
          "Please verify the accuracy of the permit. " ++
          "Confidence: " ++ fmtPercent base_confidence)
        false false none text_comparison.mismatches
      let out :=
        { base with
          confidence := base_confidence, permit_validation := pv }
      (out, trace2)
  else
    if decide ((7 : ℚ)/10 < text_conf) then
      let pv := mkPV true
        ("QR code verified. Business information matches permit. " ++
          "Confidence: " ++ fmtPercent text_conf)
        false false none []
      let out :=
        { base with
          valid := true, confidence := min (85/100) text_conf,
          permit_validation := pv }
      (out, trace2)
    else
      let pv := mkPV false
        ("QR code business information does not match the permit. " ++
          "Please verify the QR code is from a valid permit. " ++
          "Confidence: " ++ fmtPercent text_conf)
        false false none text_comparison.mismatches
      let out :=
        { base with
          confidence := text_conf, permit_validation := pv }
      (out, trace2)

/-- The ML-only fallback of `verify_permit_image` when the QR scan
failed (`qrData` is the scan's failure message). -/
def mlFallback (ml : MLResult) (qrData : String) (base : VerificationResult)
    (trace0 : List Eff) : VerificationResult × List Eff :=
  if ml.available && ml.is_permit && decide ((8 : ℚ)/10 < ml.confidence) then
    let pv := mkPV false
      ("No QR code detected, but ML classifier identifies this as a " ++
        "business permit (confidence: " ++ fmtPercent ml.confidence ++ "). " ++
        "Submitted for manual review — please ensure the QR code is visible.")
      false true none []
    let out :=
      { base with
        confidence := ml.confidence * (7/10), permit_validation := pv }
    (out, trace0)
  else if ml.available && !ml.is_permit then
    let pv := mkPV false
      ("No QR code detected and the image does not appear to be a " ++
        "business permit. Please upload a clear photo of your DTI " ++
        "Business Permit with the QR code visible.")
      false false none []
    let out :=
      { base with
        confidence := 1/10, permit_validation := pv }
    (out, trace0)
  else
    -- No ML model available, no QR code: carry the scan error message
    let out :=
      { base with
        permit_validation := { base.permit_validation with message := qrData } }
    (out, trace0)

/-- `ImageVerificationSystem.verify_permit_image`: the full pipeline on
the oracle environment, returning the result and the stage-call trace. -/
def verify_permit_image (env : Env) (image_path : String)
    (user_business_name user_owner_name : Option String) :
    VerificationResult × List Eff :=
  let base : VerificationResult :=
    { valid := false, confidence := 0, quality_check := none, ml_prediction := none,
      qr_scan := none, qr_data := none, dti_url_valid := false, dti_validation := none,
      business_info := none, name_verification := none, text_verification := none,
      extracted_text := "", file_path := image_path,
      permit_validation := PermitValidation.init }
  -- ---- Step 1: Image quality ----
  let q := check_image_quality env.image
  let base := { base with quality_check := some { passed := q.1, message := q.2 } }
  if !q.1 then
    let out :=
      { base with
        permit_validation := { base.permit_validation with message := q.2 } }
    (out, [Eff.quality])
  else
    -- ---- Step 2: ML classification ----
    let ml := env.ml
    let base := { base with ml_prediction := some ml }
    -- ---- Step 3: Scan QR code ----
    let qr := env.qr
    let qrInfo : QRScanInfo :=
      { passed := qr.ok
        message := if qr.ok then "QR decoded (" ++ qr.method ++ ")" else qr.data
        method := qr.method }
    let base := { base with qr_scan := some qrInfo }
    let trace0 := [Eff.quality, Eff.mlPredict, Eff.qrScan]
    if qr.ok then
      let base := { base with qr_data := some qr.data, extracted_text := qr.data }
      -- ---- Step 3b: Verify QR text against actual permit text ----
      let qr_fields := parse_qr_text qr.data
      let trace1 := trace0 ++ [Eff.ocr]
      let tvFallback : TextComparison :=
        { business_name_match := false, business_owner_match := false,
          validity_date_match := false, business_number_match := false,
          scope_match := false,
          details := "Could not extract text from permit image for verification",
          mismatches := [], confidence := 0 }
      let base :=
        if env.ocr_ok && !env.ocr_text.isEmpty then
          { base with text_verification := some (compare_fields_dispatch
              env.fuzzyAvailable env.tokenSetRatio qr_fields
              (extract_permit_text_details env.ocr_text) (70/100)) }
        else
          { base with text_verification := some tvFallback }
      -- ---- Step 4: Is it a DTI URL? ----
      let isdti := is_dti_url qr.data
      let base := { base with dti_url_valid := isdti }
      if isdti then
        let binfo := extract_business_info_from_url qr.data
        let base := { base with business_info := some binfo }
        -- ---- Step 6: Validate against DTI website ----
        let dti_details := env.dti
        let base := { base with dti_validation := some dti_details }
        -- ---- Step 7: Name cross-check ----
        let name_check := cross_check_names user_business_name user_owner_name
          dti_details.business_name dti_details.owner_name
        let base := { base with name_verification := some name_check }
        dtiDecision ml base binfo env.dti_ok dti_details name_check
          (trace1 ++ [Eff.dtiFetch])
      else
        -- QR found but NOT a DTI URL: treat as text-based QR
        let qr_fields := parse_qr_text qr.data
        if env.ocr_ok && !env.ocr_text.isEmpty then
          let permit_fields := extract_permit_text_details env.ocr_text
          let text_comparison := compare_fields_dispatch env.fuzzyAvailable
            env.tokenSetRatio qr_fields permit_fields (70/100)
          let base := { base with text_verification := some text_comparison }
          let name_check := cross_check_names
            (pyOrOpt user_business_name qr_fields.business_name)
            (pyOrOpt user_owner_name qr_fields.business_owner)
            qr_fields.business_name qr_fields.business_owner
          let base := { base with name_verification := some name_check }
          textQrDecision ml base text_comparison name_check
            qr_fields.business_name qr_fields.business_owner
            (trace1 ++ [Eff.ocr])
        else
          let pv := mkPV false
            ("Cannot extract text from permit image for QR comparison. " ++
              "Please ensure the permit image is clear and readable.")
            false false none []
          let out :=
            { base with
              confidence := 4/10, permit_validation := pv }
          (out, trace1 ++ [Eff.ocr])
    else
      -- ---- QR scan failed — fall back to ML-only ----
      mlFallback ml qr.data base trace0


end Permit

namespace Permit

/-! ## Helper lemmas about the decision branches -/

/-- The DTI decision branch keeps `valid` and `permit_validation.passed`
in lockstep (both are set explicitly on every outcome, or kept at the
incoming `false`). -/
theorem dtiDecision_valid_eq_passed (ml : MLResult) (base : VerificationResult)
    (binfo : BusinessInfo) (dv : Bool) (dd : DTIDetails) (nc : NameCheck)
    (tr : List Eff) (h1 : base.valid = false)
    (_h2 : base.permit_validation.passed = false) :
    (dtiDecision ml base binfo dv dd nc tr).1.valid =
    (dtiDecision ml base binfo dv dd nc tr).1.permit_validation.passed := by
  unfold dtiDecision mkPV
  try dsimp only
  repeat' split
  all_goals simp [h1]

/-- The text-QR decision branch keeps `valid` and `passed` in lockstep. -/
theorem textQrDecision_valid_eq_passed (ml : MLResult) (base : VerificationResult)
    (tc : TextComparison) (nc : NameCheck) (qb qo : Option String) (tr : List Eff)
    (h1 : base.valid = false) (_h2 : base.permit_validation.passed = false) :
    (textQrDecision ml base tc nc qb qo tr).1.valid =
    (textQrDecision ml base tc nc qb qo tr).1.permit_validation.passed := by
  unfold textQrDecision mkPV
  try dsimp only
  repeat' split
  all_goals simp [h1]

/-- The ML-only fallback keeps `valid` and `passed` in lockstep. -/
theorem mlFallback_valid_eq_passed (ml : MLResult) (d : String)
    (base : VerificationResult) (tr : List Eff) (h1 : base.valid = false)
    (h2 : base.permit_validation.passed = false) :
    (mlFallback ml d base tr).1.valid =
    (mlFallback ml d base tr).1.permit_validation.passed := by
  unfold mlFallback mkPV
  try dsimp only
  repeat' split
  all_goals simp [h1, h2]

/-- If the rounded cross-check score is below `0.4` the overall flag is
false (the zero-checks default score is `0.5`, so some pair was
compared, and `0.4 < 0.65`). -/
theorem crossCheck_overall_false (a b c d : Option String)
    (h : (cross_check_names a b c d).score < 2/5) :
    (cross_check_names a b c d).overall_match = false := by
  unfold cross_check_names at h ⊢
  try dsimp only at h ⊢
  split at h
  next hcond =>
    rw [if_pos hcond]
    try dsimp only
    rw [decide_eq_false]
    unfold NAME_MATCH_THRESHOLD
    intro hle
    try dsimp only at hle
    linarith
  next hcond =>
    exfalso
    norm_num at h

/-- On a confirmed registry page, a sub-`0.4` cross-check with at least
one scraped name present produces exactly the name-mismatch rejection. -/
theorem dtiDecision_name_mismatch (ml : MLResult) (base : VerificationResult)
    (binfo : BusinessInfo) (dd : DTIDetails) (nc : NameCheck) (tr : List Eff)
    (hov : nc.overall_match = false) (hsc : nc.score < 4/10)
    (hnm : (truthy dd.business_name || truthy dd.owner_name) = true) :
    dtiDecision ml base binfo true dd nc tr =
      ({ base with
          confidence := 9/10 - 2/10,
          permit_validation := mkPV false
            ("DTI QR code is valid, but the names you provided " ++
              "do not match DTI records. " ++ nc.details ++
              "Please ensure you entered the exact names from your permit.")
            true false none [] }, tr) := by
  have hcond : (decide (nc.score < 4/10) &&
      (truthy dd.business_name || truthy dd.owner_name)) = true := by
    simp [hsc, hnm]
  unfold dtiDecision
  try dsimp only
  rw [hov]
  simp only [Bool.false_eq_true, if_false, hcond, if_true]

/-! ## Claim theorems -/

/-- C10: every terminal result of `verify_permit_image` satisfies
`valid = permit_validation.passed`. -/
theorem C10_valid_iff_passed (env : Env) (p : String) (ubn uon : Option String) :
    (verify_permit_image env p ubn uon).1.valid =
    (verify_permit_image env p ubn uon).1.permit_validation.passed := by
  unfold verify_permit_image
  try dsimp only
  repeat' split
  all_goals first
    | rfl
    | (apply dtiDecision_valid_eq_passed <;> rfl)
    | (apply textQrDecision_valid_eq_passed <;> rfl)
    | (apply mlFallback_valid_eq_passed <;> rfl)

/-- C4: when neither name pair has both sides present,
`cross_check_names` returns score exactly `0.5` and `overall_match`
exactly `true`. -/
theorem C4_cross_check_default (ubn uon dbn don : Option String)
    (h1 : (truthy ubn && truthy dbn) = false)
    (h2 : (truthy uon && truthy don) = false) :
    (cross_check_names ubn uon dbn don).score = 1/2 ∧
    (cross_check_names ubn uon dbn don).overall_match = true := by
  unfold cross_check_names
  rw [h1, h2]
  simp

/-- Witness for C4 at the all-absent input. -/
theorem C4_witness :
    (cross_check_names none none none none).score = 1/2 ∧
    (cross_check_names none none none none).overall_match = true :=
  C4_cross_check_default none none none none rfl rfl

/-- C3: a quality-gate failure is terminal: `valid = false`, the
message is the quality failure reason, and the call trace contains only
the quality check — no ML, QR, OCR or registry invocation. -/
theorem C3_quality_gate_short_circuit (env : Env) (p : String)
    (ubn uon : Option String)
    (h : (check_image_quality env.image).1 = false) :
    (verify_permit_image env p ubn uon).1.valid = false ∧
    (verify_permit_image env p ubn uon).1.permit_validation.message =
      (check_image_quality env.image).2 ∧
    (verify_permit_image env p ubn uon).2 = [Eff.quality] := by
  unfold verify_permit_image
  try dsimp only
  simp [h]

/-- C2: the ML-only fallback when the QR scan fails outright. -/
theorem C2_ml_only_fallback (env : Env) (p : String) (ubn uon : Option String)
    (hq : (check_image_quality env.image).1 = true)
    (hqr : env.qr.ok = false) :
    (env.ml.available = true → env.ml.is_permit = true →
      (8 : ℚ)/10 < env.ml.confidence →
      (verify_permit_image env p ubn uon).1.valid = false ∧
      (verify_permit_image env p ubn uon).1.permit_validation.pending_manual_review = true ∧
      (verify_permit_image env p ubn uon).1.confidence = env.ml.confidence * (7/10)) ∧
    (env.ml.available = true → env.ml.is_permit = false →
      (verify_permit_image env p ubn uon).1.valid = false ∧
      (verify_permit_image env p ubn uon).1.confidence = 1/10) ∧
    (env.ml.available = false →
      (verify_permit_image env p ubn uon).1.valid = false ∧
      (verify_permit_image env p ubn uon).1.confidence = 0 ∧
      (verify_permit_image env p ubn uon).1.permit_validation.message = env.qr.data) := by
  unfold verify_permit_image mlFallback
  try dsimp only
  refine ⟨fun ha hp hc => ?_, fun ha hp => ?_, fun ha => ?_⟩
  · simp [hq, hqr, ha, hp, hc, mkPV]
  · simp [hq, hqr, ha, hp, mkPV]
  · simp [hq, hqr, ha, mkPV, PermitValidation.init]

/-- C1: registry URL confirmed, cross-check score below `0.4`, at least
one scraped name present ⟹ terminal reject, confidence
`0.90 − 0.20 = 0.70`, `name_mismatch = true`. -/
theorem C1_registry_name_mismatch (env : Env) (p : String) (ubn uon : Option String)
    (hq : (check_image_quality env.image).1 = true)
    (hqr : env.qr.ok = true)
    (hurl : is_dti_url env.qr.data = true)
    (hdti : env.dti_ok = true)
    (hscore : (cross_check_names ubn uon env.dti.business_name
      env.dti.owner_name).score < 2/5)
    (hname : (truthy env.dti.business_name || truthy env.dti.owner_name) = true) :
    (verify_permit_image env p ubn uon).1.valid = false ∧
    (verify_permit_image env p ubn uon).1.confidence = 9/10 - 2/10 ∧
    (verify_permit_image env p ubn uon).1.confidence = 7/10 ∧
    (verify_permit_image env p ubn uon).1.permit_validation.name_mismatch = true := by
  have hov := crossCheck_overall_false ubn uon env.dti.business_name
    env.dti.owner_name hscore
  unfold verify_permit_image
  try dsimp only
  rw [hdti]
  rw [dtiDecision_name_mismatch _ _ _ _ _ _ hov (by linarith) hname]
  simp only [hq, hqr, hurl]
  norm_num [mkPV, apply_ite VerificationResult.valid, ite_self]

end Permit

namespace Permit

/-- C8: the quality gate's rules in their evaluation order, first
failure winning, with the exact boundary behaviour (`30` passes the
blur rule; `30` and `230` pass the brightness rule). -/
theorem C8_quality_gate_rules :
    check_image_quality none = (false, "Invalid image file") ∧
    (∀ img : RawImage, (check_image_quality (some img)).1 = true ↔
      (200 ≤ img.height ∧ 200 ≤ img.width ∧ 30 ≤ img.lapVar ∧
        30 ≤ img.brightness ∧ img.brightness ≤ 230)) ∧
    (∀ img : RawImage, (img.height < 200 ∨ img.width < 200) →
      (check_image_quality (some img)).2 =
        "Image too small (" ++ toString img.width ++ "×" ++ toString img.height ++
          "). Please upload at least 400×300.") ∧
    (∀ img : RawImage, 200 ≤ img.height → 200 ≤ img.width → img.lapVar < 30 →
      (check_image_quality (some img)).2 =
        "Image is too blurry (clarity " ++ fmtF0 img.lapVar ++
          "/30+). Please take a clearer photo of the QR code on your permit.") ∧
    (∀ img : RawImage, 200 ≤ img.height → 200 ≤ img.width → 30 ≤ img.lapVar →
      (img.brightness < 30 ∨ 230 < img.brightness) →
      (check_image_quality (some img)).2 =
        "Image brightness is poor (" ++ fmtF0 img.brightness ++
          "). Ensure good lighting when photographing the permit.") ∧
    (∀ img : RawImage, 200 ≤ img.height → 200 ≤ img.width → 30 ≤ img.lapVar →
      30 ≤ img.brightness → img.brightness ≤ 230 →
      check_image_quality (some img) = (true, "Image quality OK")) := by
  refine ⟨rfl, fun img => ?_, fun img h => ?_, fun img h1 h2 h3 => ?_,
    fun img h1 h2 h3 h4 => ?_, fun img h1 h2 h3 h4 h5 => ?_⟩
  all_goals simp only [check_image_quality]
  · split_ifs with hs hb hl
    · simp only [Bool.or_eq_true, decide_eq_true_eq] at hs
      constructor
      · intro hT; simp at hT
      · rintro ⟨p1, p2, p3, p4, p5⟩; exfalso; rcases hs with h | h <;> omega
    · constructor
      · intro hT; simp at hT
      · rintro ⟨p1, p2, p3, p4, p5⟩; exfalso; linarith
    · simp only [Bool.or_eq_true, decide_eq_true_eq] at hl
      constructor
      · intro hT; simp at hT
      · rintro ⟨p1, p2, p3, p4, p5⟩; exfalso; rcases hl with h | h <;> linarith
    · simp only [Bool.or_eq_true, decide_eq_true_eq, not_or, not_lt] at hs hb hl
      exact iff_of_true rfl ⟨hs.1, hs.2, hb, hl.1, hl.2⟩
  · rw [if_pos]
    simp [Bool.or_eq_true, decide_eq_true_eq]
    omega
  · rw [if_neg, if_pos h3]
    simp only [Bool.or_eq_true, decide_eq_true_eq, not_or, not_lt]
    exact ⟨by omega, by omega⟩
  · rw [if_neg, if_neg (by linarith : ¬ img.lapVar < 30), if_pos]
    · simp only [Bool.or_eq_true, decide_eq_true_eq]
      rcases h4 with h | h
      · exact Or.inl h
      · exact Or.inr h
    · simp only [Bool.or_eq_true, decide_eq_true_eq, not_or, not_lt]
      exact ⟨by omega, by omega⟩
  · rw [if_neg, if_neg (by linarith : ¬ img.lapVar < 30), if_neg]
    · simp only [Bool.or_eq_true, decide_eq_true_eq, not_or, not_lt]
      exact ⟨by linarith, by linarith⟩
    · simp only [Bool.or_eq_true, decide_eq_true_eq, not_or, not_lt]
      exact ⟨by omega, by omega⟩

/-- C9: the feature vector always has the 27 entries of `FEATURE_NAMES`
in order, with `0` substituted for absent keys (the function is total,
so it cannot raise). -/
theorem C9_feature_vector_total (d : String → Option ℚ) :
    (features_to_vector d).length = 27 ∧
    (∀ i (hv : i < (features_to_vector d).length) (hn : i < FEATURE_NAMES.length),
      (features_to_vector d).get ⟨i, hv⟩ = (d (FEATURE_NAMES.get ⟨i, hn⟩)).getD 0) := by
  constructor
  · rfl
  · intro i hv hn
    unfold features_to_vector
    simp [List.getElem_map]

end Permit

namespace Permit

/-! ## Witness oracles and witness theorems -/


def imgW : RawImage := { height := 600, width := 800, lapVar := 100, brightness := 128 }

def mlOffW : MLResult := { available := false, is_permit := false, confidence := 0, label := "unknown" }

def dtiW : DTIDetails :=
  { url_checked := "https://bnrs.dti.gov.ph/search?id=1", reachable := true,
    dti_confirmed := true, business_name := some "farm", owner_name := none,
    registration_number := none, status := none,
    message := "DTI registration confirmed via BNRS.", http_status := some 200 }

def envC1W : Env :=
  { image := some imgW, ml := mlOffW,
    qr := { ok := true, data := "https://bnrs.dti.gov.ph/search?id=1", method := "original" },
    ocr_ok := false, ocr_text := "", dti_ok := true, dti := dtiW,
    fuzzyAvailable := true, tokenSetRatio := fun _ _ => 100 }

theorem qualW : (check_image_quality (some imgW)).1 = true := by
  norm_num [check_image_quality, imgW]

theorem crossCheckW :
    (cross_check_names (some "abc") none (some "farm") none).score = 0 := by
  have hb : normalizeNameL "farm".data = [] := by decide
  have ha : normalizeNameL "abc".data = "abc".data := by decide
  unfold cross_check_names
  norm_num [truthy, name_similarity, nameSimilarityL, ha, hb, optStrD,
    pyRound3, roundTE, NAME_MATCH_THRESHOLD,
    show "abc".isEmpty = false from rfl, show "farm".isEmpty = false from rfl]

theorem C1_witness :
    (verify_permit_image envC1W "permit.jpg" (some "abc") none).1.valid = false ∧
    (verify_permit_image envC1W "permit.jpg" (some "abc") none).1.confidence = 9/10 - 2/10 ∧
    (verify_permit_image envC1W "permit.jpg" (some "abc") none).1.confidence = 7/10 ∧
    (verify_permit_image envC1W "permit.jpg" (some "abc") none).1.permit_validation.name_mismatch = true :=
  C1_registry_name_mismatch envC1W "permit.jpg" (some "abc") none
    qualW rfl (by decide) rfl
    (by rw [show envC1W.dti.business_name = some "farm" from rfl,
          show envC1W.dti.owner_name = none from rfl, crossCheckW]; norm_num)
    (by decide)


def qrFailW : QRScan :=
  { ok := false
    data := "No QR code detected. Please ensure the QR code on your DTI Business Permit is clearly visible and not obstructed."
    method := "" }

def envC2aW : Env :=
  { envC1W with
    qr := qrFailW
    ml := { available := true, is_permit := true, confidence := 9/10, label := "authentic" } }

def envC2bW : Env :=
  { envC1W with
    qr := qrFailW
    ml := { available := true, is_permit := false, confidence := 9/10, label := "non_permit" } }

def envC2cW : Env :=
  { envC1W with
    qr := qrFailW
    ml := mlOffW }

theorem C2_witness :
    ((verify_permit_image envC2aW "permit.jpg" none none).1.valid = false ∧
     (verify_permit_image envC2aW "permit.jpg" none none).1.permit_validation.pending_manual_review = true ∧
     (verify_permit_image envC2aW "permit.jpg" none none).1.confidence = envC2aW.ml.confidence * (7/10)) ∧
    ((verify_permit_image envC2bW "permit.jpg" none none).1.valid = false ∧
     (verify_permit_image envC2bW "permit.jpg" none none).1.confidence = 1/10) ∧
    ((verify_permit_image envC2cW "permit.jpg" none none).1.valid = false ∧
     (verify_permit_image envC2cW "permit.jpg" none none).1.confidence = 0 ∧
     (verify_permit_image envC2cW "permit.jpg" none none).1.permit_validation.message = envC2cW.qr.data) :=
  ⟨(C2_ml_only_fallback envC2aW "permit.jpg" none none qualW (by rfl)).1
      (by rfl) (by rfl) (by norm_num [envC2aW]),
   (C2_ml_only_fallback envC2bW "permit.jpg" none none qualW (by rfl)).2.1
      (by rfl) (by rfl),
   (C2_ml_only_fallback envC2cW "permit.jpg" none none qualW (by rfl)).2.2 (by rfl)⟩

def envC3W : Env := { envC1W with image := none }

theorem C3_witness :
    (verify_permit_image envC3W "permit.jpg" none none).1.valid = false ∧
    (verify_permit_image envC3W "permit.jpg" none none).1.permit_validation.message =
      "Invalid image file" ∧
    (verify_permit_image envC3W "permit.jpg" none none).2 = [Eff.quality] :=
  C3_quality_gate_short_circuit envC3W "permit.jpg" none none (by rfl)

theorem fmtF0_ten : fmtF0 10 = "10" := by
  unfold fmtF0 roundTE
  norm_num
  decide

theorem fmtF0_twoforty : fmtF0 240 = "240" := by
  unfold fmtF0 roundTE
  norm_num
  decide

theorem C8_witness :
    (check_image_quality (some { height := 100, width := 500, lapVar := 10, brightness := 10 })).2 =
      "Image too small (500×100). Please upload at least 400×300." ∧
    (check_image_quality (some { height := 600, width := 800, lapVar := 10, brightness := 10 })).2 =
      "Image is too blurry (clarity 10/30+). Please take a clearer photo of the QR code on your permit." ∧
    (check_image_quality (some { height := 600, width := 800, lapVar := 30, brightness := 240 })).2 =
      "Image brightness is poor (240). Ensure good lighting when photographing the permit." ∧
    check_image_quality (some { height := 600, width := 800, lapVar := 30, brightness := 230 }) =
      (true, "Image quality OK") := by
  refine ⟨?_, ?_, ?_, ?_⟩
  · exact C8_quality_gate_rules.2.2.1 _ (Or.inl (by norm_num))
  · have h := C8_quality_gate_rules.2.2.2.1
      { height := 600, width := 800, lapVar := 10, brightness := 10 }
      (by norm_num) (by norm_num) (by norm_num)
    rw [h]
    rw [show ({ height := 600, width := 800, lapVar := 10, brightness := 10 } :
      RawImage).lapVar = 10 from rfl, fmtF0_ten]
    decide
  · have h := C8_quality_gate_rules.2.2.2.2.1
      { height := 600, width := 800, lapVar := 30, brightness := 240 }
      (by norm_num) (by norm_num) (by norm_num) (Or.inr (by norm_num))
    rw [h]
    rw [show ({ height := 600, width := 800, lapVar := 30, brightness := 240 } :
      RawImage).brightness = 240 from rfl, fmtF0_twoforty]
    decide
  · exact C8_quality_gate_rules.2.2.2.2.2 _ (by norm_num) (by norm_num) (by norm_num)
      (by norm_num) (by norm_num)

def featDictW : String → Option ℚ := fun k => if k = "brightness" then some 5 else none

theorem C9_witness :
    (features_to_vector featDictW).length = 27 ∧
    (features_to_vector featDictW).get ⟨1, by norm_num [features_to_vector, FEATURE_NAMES]⟩ = 5 ∧
    (features_to_vector featDictW).get ⟨0, by norm_num [features_to_vector, FEATURE_NAMES]⟩ = 0 :=
  ⟨(C9_feature_vector_total featDictW).1,
   by
    have h := (C9_feature_vector_total featDictW).2 1
      (by norm_num [features_to_vector, FEATURE_NAMES]) (by norm_num [FEATURE_NAMES])
    simpa [featDictW, FEATURE_NAMES] using h,
   by
    have h := (C9_feature_vector_total featDictW).2 0
      (by norm_num [features_to_vector, FEATURE_NAMES]) (by norm_num [FEATURE_NAMES])
    simpa [featDictW, FEATURE_NAMES] using h⟩

end Permit

namespace Permit

/-- Spec-side reading of §4.5 `compareFields` for claim C7, taken at the
spec's words "for each field present on both sides": all five parsed
fields — including `scope` — are listed with (present-on-both-sides,
similarity-meets-its-threshold) flags.  Fuzzy fields are compared
case-insensitively (the fuzzy scorer is the external `token_set_ratio`,
which is whitespace-normalising, so stripping is immaterial); the
validity date uses threshold `0.80`; the business number uses exact
equality. -/
def specAllFieldChecks (scorer : String → String → ℚ) (qr pf : ParsedFields)
    (threshold : ℚ) : List (Bool × Bool) :=
  [(truthy qr.business_name && truthy pf.business_name,
    decide (threshold ≤ scorer (stripS (lowerS (optStrD qr.business_name)))
      (stripS (lowerS (optStrD pf.business_name))) / 100)),
   (truthy qr.business_owner && truthy pf.business_owner,
    decide (threshold ≤ scorer (stripS (lowerS (optStrD qr.business_owner)))
      (stripS (lowerS (optStrD pf.business_owner))) / 100)),
   (truthy qr.business_number && truthy pf.business_number,
    stripS (optStrD qr.business_number) == stripS (optStrD pf.business_number)),
   (truthy qr.validity_date && truthy pf.validity_date,
    decide ((80 : ℚ)/100 ≤ scorer (stripS (lowerS (optStrD qr.validity_date)))
      (stripS (lowerS (optStrD pf.validity_date))) / 100)),
   (truthy qr.scope && truthy pf.scope,
    decide (threshold ≤ scorer (stripS (lowerS (optStrD qr.scope)))
      (stripS (lowerS (optStrD pf.scope))) / 100))]

/-- Spec-side aggregate confidence over all five fields (claim C7 as
stated): matches/checked, `0` when nothing was comparable. -/
def specAllFieldsConfidence (scorer : String → String → ℚ) (qr pf : ParsedFields)
    (threshold : ℚ) : ℚ :=
  let checks := specAllFieldChecks scorer qr pf threshold
  let checked := checks.countP (fun c => c.1)
  let matched := checks.countP (fun c => c.1 && c.2)
  if checked = 0 then 0 else (matched : ℚ) / (checked : ℚ)

/-- The four fields the code actually compares (scope excluded): the
amended reading of claim C7. -/
def specFourFieldChecks (scorer : String → String → ℚ) (qr pf : ParsedFields)
    (threshold : ℚ) : List (Bool × Bool) :=
  (specAllFieldChecks scorer qr pf threshold).take 4

/-- Amended spec-side aggregate confidence (four compared fields). -/
def specFourFieldsConfidence (scorer : String → String → ℚ) (qr pf : ParsedFields)
    (threshold : ℚ) : ℚ :=
  let checks := specFourFieldChecks scorer qr pf threshold
  let checked := checks.countP (fun c => c.1)
  let matched := checks.countP (fun c => c.1 && c.2)
  if checked = 0 then 0 else (matched : ℚ) / (checked : ℚ)

/-- An exact-equality stand-in for the external fuzzy scorer. -/
def scorerEqW : String → String → ℚ := fun a b => if a = b then 100 else 0

/-- Fields where only `scope` is present. -/
def scopeOnlyW : ParsedFields := ⟨none, none, none, none, some "retail"⟩

/-- Arithmetic bridge: the code's `if 0 < checked` aggregate equals the
spec-style `if checked = 0` aggregate, for the four (present, match)
flag pairs. -/
theorem countConfAux (c1 c2 c3 c4 m1 m2 m3 m4 : Bool) :
    (if 0 < ((cond c1 1 0) + (cond c2 1 0) + (cond c3 1 0) + (cond c4 1 0) : Nat) then
      ((((cond (c1 && m1) 1 0) + (cond (c2 && m2) 1 0) + (cond (c3 && m3) 1 0) +
          (cond (c4 && m4) 1 0) : Nat)) : ℚ) /
        ((((cond c1 1 0) + (cond c2 1 0) + (cond c3 1 0) + (cond c4 1 0) : Nat)) : ℚ)
     else 0) =
    (if (List.countP (fun c => c.1) [(c1, m1), (c2, m2), (c3, m3), (c4, m4)]) = 0 then 0
     else ((List.countP (fun c => c.1 && c.2)
        [(c1, m1), (c2, m2), (c3, m3), (c4, m4)] : Nat) : ℚ) /
       ((List.countP (fun c => c.1) [(c1, m1), (c2, m2), (c3, m3), (c4, m4)] : Nat) : ℚ)) := by
  cases c1 <;> cases c2 <;> cases c3 <;> cases c4 <;>
    cases m1 <;> cases m2 <;> cases m3 <;> cases m4 <;>
    simp [List.countP, List.countP.go]


/-- C7 counterexample: with `scope` (and nothing else) present on both
sides and identical, the claim as stated predicts confidence `1` (one
checked field, one match) while `_compare_permit_fields` never compares
`scope` and returns `0`. -/
theorem C7_counterexample :
    (compare_permit_fields scorerEqW scopeOnlyW scopeOnlyW (70/100)).confidence = 0 ∧
    specAllFieldsConfidence scorerEqW scopeOnlyW scopeOnlyW (70/100) = 1 ∧
    (compare_permit_fields scorerEqW scopeOnlyW scopeOnlyW (70/100)).confidence ≠
      specAllFieldsConfidence scorerEqW scopeOnlyW scopeOnlyW (70/100) := by
  have h1 : (compare_permit_fields scorerEqW scopeOnlyW scopeOnlyW (70/100)).confidence = 0 := by
    norm_num [compare_permit_fields, scorerEqW, scopeOnlyW, truthy, optStrD]
  have h2 : specAllFieldsConfidence scorerEqW scopeOnlyW scopeOnlyW (70/100) = 1 := by
    norm_num [specAllFieldsConfidence, specAllFieldChecks, scorerEqW, scopeOnlyW,
      truthy, optStrD, stripS, lowerS, stripL, lowerL, dropTrailWS, isPyWS,
      List.countP, List.countP.go, show "retail".isEmpty = false from rfl]
  exact ⟨h1, h2, by rw [h1, h2]; norm_num⟩

theorem C7_compare_fields_amended (scorer : String → String → ℚ)
    (qr pf : ParsedFields) (threshold : ℚ) :
    (compare_permit_fields scorer qr pf threshold).confidence =
      specFourFieldsConfidence scorer qr pf threshold := by
  unfold compare_permit_fields specFourFieldsConfidence specFourFieldChecks
    specAllFieldChecks
  try dsimp only [List.take]
  exact countConfAux _ _ _ _ _ _ _ _


end Permit


namespace Permit

/-! C6 machinery: the two matching-block totals of the asymmetric pair. -/

set_option maxRecDepth 10000 in
theorem mt1 : matchingTotal ['a', 'b', 'c', 'd', 'x', 'e'] ['c', 'd', 'e', 'a', 'b'] = 2 := by
  decide

set_option maxRecDepth 10000 in
theorem mt2 : matchingTotal ['c', 'd', 'e', 'a', 'b'] ['a', 'b', 'c', 'd', 'x', 'e'] = 3 := by
  decide

/-- C6 counterexample: `similarity("farm","farm") = 0 ≠ 1` (the
normalization strips the whole name, hitting the empty-normal branch),
and `similarity` is not symmetric: on the normalized pair
`"abcdxe"`/`"cdeab"` the greedy Ratcliff/Obershelp recursion picks
crossing longest blocks depending on argument order, giving
`4/11 ≠ 6/11`. -/
theorem C6_counterexample :
    (("farm" : String) ≠ "" ∧ name_similarity "farm" "farm" ≠ 1) ∧
    name_similarity "abcdxe" "cdeab" ≠ name_similarity "cdeab" "abcdxe" := by
  constructor
  · constructor
    · intro h; simp at h
    · have hfarm : normalizeNameL "farm".data = [] := by decide
      simp [name_similarity, nameSimilarityL, hfarm]
  · have h1 : normalizeNameL "abcdxe".data = "abcdxe".data := by decide
    have h2 : normalizeNameL "cdeab".data = "cdeab".data := by decide
    have hne : ¬ ("abcdxe".data = "cdeab".data) := by decide
    have hs1 : isSubL "abcdxe".data "cdeab".data = false := by decide
    have hs2 : isSubL "cdeab".data "abcdxe".data = false := by decide
    have hl1 : ("abcdxe".data : List Char).length = 6 := by decide
    have hl2 : ("cdeab".data : List Char).length = 5 := by decide
    have hc1 : ¬((['a', 'b', 'c', 'd', 'x', 'e'] : List Char) = [] ∨
        (['c', 'd', 'e', 'a', 'b'] : List Char) = []) := by simp
    have hc2 : ¬((['c', 'd', 'e', 'a', 'b'] : List Char) = [] ∨
        (['a', 'b', 'c', 'd', 'x', 'e'] : List Char) = []) := by simp
    simp only [name_similarity, nameSimilarityL, h1, h2, hne, hs1, hs2, ratioQ, hl1, hl2]
    norm_num [mt1, mt2]
    rw [if_neg hc1, if_neg hc1, if_neg hc2, if_neg hc2]
    norm_num

/-- C6 amended: `similarity(a,a) = 1` for every `a` whose normalized
form is non-empty; and `similarity(a,b) = similarity(b,a)` whenever the
normalized forms are equal, one is empty, or one contains the other —
i.e. except possibly in the Ratcliff/Obershelp fallback, which is
order-dependent. -/
theorem C6_similarity_amended :
    (∀ a : String, normalizeNameL a.data ≠ [] → name_similarity a a = 1) ∧
    (∀ a b : String,
      (normalizeNameL a.data = normalizeNameL b.data ∨
       normalizeNameL a.data = [] ∨ normalizeNameL b.data = [] ∨
       isSubL (normalizeNameL a.data) (normalizeNameL b.data) = true ∨
       isSubL (normalizeNameL b.data) (normalizeNameL a.data) = true) →
      name_similarity a b = name_similarity b a) := by
  constructor
  · intro a h
    have hraw : ¬ (a.data = []) := by
      intro he
      apply h
      rw [he]
      rfl
    simp [name_similarity, nameSimilarityL, hraw, h]
  · intro a b hcase
    by_cases ha : a.data = []
    · simp [name_similarity, nameSimilarityL, ha]
    by_cases hb : b.data = []
    · simp [name_similarity, nameSimilarityL, hb]
    by_cases hna : normalizeNameL a.data = []
    · simp [name_similarity, nameSimilarityL, ha, hb, hna]
    by_cases hnb : normalizeNameL b.data = []
    · simp [name_similarity, nameSimilarityL, ha, hb, hnb]
    by_cases heq : normalizeNameL a.data = normalizeNameL b.data
    · simp [name_similarity, nameSimilarityL, ha, hb, hna, hnb, heq]
    · have heq' : ¬ (normalizeNameL b.data = normalizeNameL a.data) :=
        fun hh => heq hh.symm
      have hsub : isSubL (normalizeNameL a.data) (normalizeNameL b.data) = true ∨
          isSubL (normalizeNameL b.data) (normalizeNameL a.data) = true := by
        rcases hcase with h | h | h | h | h
        · exact absurd h heq
        · exact absurd h hna
        · exact absurd h hnb
        · exact Or.inl h
        · exact Or.inr h
      rcases hsub with h | h <;>
        simp [name_similarity, nameSimilarityL, ha, hb, hna, hnb, heq, heq', h]

/-- Witness for the amended C6 at concrete inputs. -/
theorem C6_witness :
    (normalizeNameL ("juan" : String).data ≠ [] ∧ name_similarity "juan" "juan" = 1) ∧
    name_similarity "juan farm" "juan" = name_similarity "juan" "juan farm" := by
  refine ⟨⟨by decide, C6_similarity_amended.1 "juan" (by decide)⟩,
    C6_similarity_amended.2 "juan farm" "juan" (Or.inl (by decide))⟩

end Permit

namespace Permit

/-! ## Character-level facts for the normalization development -/

theorem charEqIffToNat (c d : Char) : (c = d) ↔ c.toNat = d.toNat := by
  constructor
  · intro h; rw [h]
  · intro h; exact Char.ext (UInt32.ext h)

theorem uleNat (a b : UInt32) : (a ≤ b) ↔ a.toNat ≤ b.toNat := by
  simp [UInt32.le_def, BitVec.le_def, UInt32.toNat]

theorem charLeIffToNat (c d : Char) : (c ≤ d) ↔ c.toNat ≤ d.toNat := by
  rw [Char.le_def, uleNat]
  exact Iff.rfl

theorem charOfNatToNat (n : Nat) (h : n < 55296) : (Char.ofNat n).toNat = n := by
  unfold Char.ofNat
  rw [dif_pos (Or.inl h)]
  unfold Char.ofNatAux Char.toNat
  simp [UInt32.toNat, UInt32.ofNatCore]

theorem toLowerFix (c : Char) (h : ¬(65 ≤ c.toNat ∧ c.toNat ≤ 90)) : c.toLower = c := by
  unfold Char.toLower
  rw [if_neg]
  omega

theorem toLowerUpper (c : Char) (h : 65 ≤ c.toNat ∧ c.toNat ≤ 90) :
    (c.toLower).toNat = c.toNat + 32 := by
  unfold Char.toLower
  rw [if_pos]
  · exact charOfNatToNat _ (by omega)
  · omega

theorem isPyWS_iff (c : Char) : isPyWS c = true ↔
    (c.toNat = 32 ∨ c.toNat = 9 ∨ c.toNat = 10 ∨ c.toNat = 13 ∨
     c.toNat = 11 ∨ c.toNat = 12) := by
  simp only [isPyWS, Bool.or_eq_true, decide_eq_true_eq, charEqIffToNat]
  have h1 : (' ').toNat = 32 := rfl
  have h2 : ('\t').toNat = 9 := rfl
  have h3 : ('\n').toNat = 10 := rfl
  have h4 : ('\x0d').toNat = 13 := rfl
  have h5 : ('\x0b').toNat = 11 := rfl
  have h6 : ('\x0c').toNat = 12 := rfl
  rw [h1, h2, h3, h4, h5, h6]
  tauto

theorem isWordChar_iff (c : Char) : isWordChar c = true ↔
    ((48 ≤ c.toNat ∧ c.toNat ≤ 57) ∨ (65 ≤ c.toNat ∧ c.toNat ≤ 90) ∨
     (97 ≤ c.toNat ∧ c.toNat ≤ 122) ∨ c.toNat = 95) := by
  simp only [isWordChar, Char.isAlphanum, Char.isAlpha, Char.isUpper, Char.isLower,
    Char.isDigit, Bool.or_eq_true, Bool.and_eq_true, decide_eq_true_eq,
    charEqIffToNat, ge_iff_le, uleNat]
  show ((65 ≤ c.toNat ∧ c.toNat ≤ 90 ∨ 97 ≤ c.toNat ∧ c.toNat ≤ 122) ∨
      48 ≤ c.toNat ∧ c.toNat ≤ 57) ∨ c.toNat = 95 ↔ _
  omega

theorem isAlphanum_iff (c : Char) : c.isAlphanum = true ↔
    ((48 ≤ c.toNat ∧ c.toNat ≤ 57) ∨ (65 ≤ c.toNat ∧ c.toNat ≤ 90) ∨
     (97 ≤ c.toNat ∧ c.toNat ≤ 122)) := by
  simp only [Char.isAlphanum, Char.isAlpha, Char.isUpper, Char.isLower,
    Char.isDigit, Bool.or_eq_true, Bool.and_eq_true, decide_eq_true_eq,
    ge_iff_le, uleNat]
  show (65 ≤ c.toNat ∧ c.toNat ≤ 90 ∨ 97 ≤ c.toNat ∧ c.toNat ≤ 122) ∨
      48 ≤ c.toNat ∧ c.toNat ≤ 57 ↔ _
  omega

/-- The characters kept by `keepAlnumWS`, numerically. -/
theorem keepPred_iff (c : Char) :
    ((('a' ≤ c && c ≤ 'z') || c.isDigit || isPyWS c) = true) ↔
    ((97 ≤ c.toNat ∧ c.toNat ≤ 122) ∨ (48 ≤ c.toNat ∧ c.toNat ≤ 57) ∨
     (c.toNat = 32 ∨ c.toNat = 9 ∨ c.toNat = 10 ∨ c.toNat = 13 ∨
      c.toNat = 11 ∨ c.toNat = 12)) := by
  simp only [Bool.or_eq_true, Bool.and_eq_true, decide_eq_true_eq,
    charLeIffToNat, isPyWS_iff, Char.isDigit, ge_iff_le, uleNat]
  show (('a'.toNat ≤ c.toNat ∧ c.toNat ≤ 'z'.toNat) ∨
      (48 ≤ c.toNat ∧ c.toNat ≤ 57)) ∨ _ ↔ _
  have ha : ('a').toNat = 97 := rfl
  have hz : ('z').toNat = 122 := rfl
  rw [ha, hz]
  omega

/-- A word character is never Python whitespace. -/
theorem wordNotWS (c : Char) (h : isWordChar c = true) : isPyWS c = false := by
  rw [isWordChar_iff] at h
  cases hws : isPyWS c
  · rfl
  · rw [isPyWS_iff] at hws
    omega

end Permit

namespace Permit

/-! ## Word-run structure of strings and the `\b`-substitution scanner -/

theorem length_dropWhile_le_self (p : Char → Bool) : ∀ (l : List Char),
    (l.dropWhile p).length ≤ l.length
  | [] => Nat.le_refl _
  | c :: rest => by
    rw [List.dropWhile_cons]
    split
    · exact Nat.le_succ_of_le (length_dropWhile_le_self p rest)
    · exact Nat.le_refl _

/-- Maximal word-character runs of a string, in order. -/
def wordsOf : List Char → List (List Char)
  | [] => []
  | c :: rest =>
    if isWordChar c then
      (c :: rest.takeWhile isWordChar) :: wordsOf (rest.dropWhile isWordChar)
    else wordsOf rest
termination_by t => t.length
decreasing_by
  all_goals simp_wf
  all_goals first
  | omega
  | (have hdw := length_dropWhile_le_self isWordChar rest
     omega)

/-- Join words with single spaces (the canonical normalized shape). -/
def joinWords : List (List Char) → List Char
  | [] => []
  | [r] => r
  | r :: r₂ :: l => r ++ ' ' :: joinWords (r₂ :: l)

/-- The last element of `ys`, or `p` when `ys` is empty: the `prev`
value of the scanner after passing over `ys`. -/
def lastOr (p : Option Char) (ys : List Char) : Option Char :=
  ys.foldl (fun _ c => some c) p

/-- The head of `t` is absent or not a word character. -/
def headNotWord (t : List Char) : Prop :=
  ∀ d, t.head? = some d → isWordChar d = false

theorem headNotWord_nil : headNotWord [] := by
  intro d h
  simp at h

theorem headNotWord_cons {d : Char} (t : List Char) (h : isWordChar d = false) :
    headNotWord (d :: t) := by
  intro e he
  simp only [List.head?_cons, Option.some.injEq] at he
  rwa [← he]

theorem subWordGo_nil (w : List Char) (p : Option Char) (k : Nat) :
    subWordGo w p k [] = [] := by
  cases k <;> rfl

theorem subWordGo_succ (w : List Char) (p : Option Char) (k : Nat) (c : Char)
    (rest : List Char) : subWordGo w p (k + 1) (c :: rest) = subWordGo w (some c) k rest :=
  rfl

theorem subWordGo_zero_cons (w : List Char) (p : Option Char) (c : Char)
    (rest : List Char) : subWordGo w p 0 (c :: rest) =
    if wordBound p && w.isPrefixOf (c :: rest) && tailBound w (c :: rest) then
      subWordGo w (some c) (w.length - 1) rest
    else c :: subWordGo w (some c) 0 rest :=
  rfl

/-- Skipping over the `ys` characters of a found match. -/
theorem subWordGo_skip (w : List Char) : ∀ (ys : List Char) (p : Option Char)
    (t : List Char), subWordGo w p ys.length (ys ++ t) = subWordGo w (lastOr p ys) 0 t
  | [], p, t => by simp [lastOr]
  | y :: ys, p, t => by
    rw [show (y :: ys).length = ys.length + 1 from rfl,
      show (y :: ys) ++ t = y :: (ys ++ t) from rfl, subWordGo_succ,
      subWordGo_skip w ys (some y) t]
    simp [lastOr]

/-- The scanner never removes characters it passes: its output is a
sublist of its input. -/
theorem subWordGo_sublist (w : List Char) : ∀ (p : Option Char) (k : Nat)
    (t : List Char), List.Sublist (subWordGo w p k t) t
  | _, k, [] => by rw [subWordGo_nil]
  | _, Nat.succ k, c :: rest => by
    rw [subWordGo_succ]
    exact .cons c (subWordGo_sublist w (some c) k rest)
  | p, 0, c :: rest => by
    rw [subWordGo_zero_cons]
    split
    · exact .cons c (subWordGo_sublist w (some c) (w.length - 1) rest)
    · exact .cons₂ c (subWordGo_sublist w (some c) 0 rest)

/-- At a non-word head no match can start, whatever `prev` is. -/
theorem subWordGo_cons_nonword (w : List Char) (hw : w ≠ [])
    (hwc : ∀ c ∈ w, isWordChar c = true) {d : Char} (t₂ : List Char)
    (hd : isWordChar d = false) (p : Option Char) :
    subWordGo w p 0 (d :: t₂) = d :: subWordGo w (some d) 0 t₂ := by
  have hpre : w.isPrefixOf (d :: t₂) = false := by
    cases w with
    | nil => exact absurd rfl hw
    | cons w₀ w' =>
      have hw₀ : isWordChar w₀ = true := hwc w₀ (by simp)
      have hbeq : (w₀ == d) = false := by
        cases h : w₀ == d
        · rfl
        · rw [beq_iff_eq] at h
          rw [h, hd] at hw₀
          cases hw₀
      simp [List.isPrefixOf, hbeq]
  rw [subWordGo_zero_cons, hpre]
  simp

/-- When the head is not a word character, `prev` is irrelevant. -/
theorem subWordGo_headNotWord (w : List Char) (hw : w ≠ [])
    (hwc : ∀ c ∈ w, isWordChar c = true) (t : List Char) (ht : headNotWord t)
    (p q : Option Char) : subWordGo w p 0 t = subWordGo w q 0 t := by
  cases t with
  | nil => rfl
  | cons d t₂ =>
    have hd : isWordChar d = false := ht d rfl
    rw [subWordGo_cons_nonword w hw hwc t₂ hd p,
      subWordGo_cons_nonword w hw hwc t₂ hd q]

/-- Scanning inside a word run (previous character is a word character)
emits the run unchanged. -/
theorem subWordGo_run (w : List Char) : ∀ (r t : List Char) (p : Char),
    (∀ c ∈ r, isWordChar c = true) → isWordChar p = true →
    subWordGo w (some p) 0 (r ++ t) = r ++ subWordGo w (lastOr (some p) r) 0 t
  | [], t, p, _, _ => by simp [lastOr]
  | c :: r', t, p, hr, hp => by
    rw [show (c :: r') ++ t = c :: (r' ++ t) from rfl, subWordGo_zero_cons]
    have hb : wordBound (some p) = false := by simp [wordBound, hp]
    rw [hb]
    simp only [Bool.false_and, Bool.false_eq_true, if_false]
    rw [subWordGo_run w r' t c (fun x hx => hr x (by simp [hx])) (hr c (by simp))]
    simp [lastOr]

end Permit

namespace Permit

theorem tailBound_cons (w' : List Char) (w₀ c : Char) (s : List Char) :
    tailBound (w₀ :: w') (c :: s) = tailBound w' s := by
  simp only [tailBound, List.length_cons, List.drop_succ_cons]

/-- A word-char pattern distinct from a full word run neither matches
the run (with its boundary) at its start. -/
theorem prefixFail (t : List Char) (ht : headNotWord t) :
    ∀ (w r : List Char), w ≠ [] → (∀ c ∈ w, isWordChar c = true) →
      (∀ c ∈ r, isWordChar c = true) → w ≠ r →
      (List.isPrefixOf w (r ++ t) && tailBound w (r ++ t)) = false
  | [], _, hw, _, _, _ => absurd rfl hw
  | w₀ :: w', r, _, hwc, hrc, hne => by
    cases r with
    | nil =>
      cases t with
      | nil => rfl
      | cons d t₂ =>
        have hd : isWordChar d = false := ht d rfl
        have hw₀ : isWordChar w₀ = true := hwc w₀ (by simp)
        have hbeq : (w₀ == d) = false := by
          cases h : w₀ == d
          · rfl
          · rw [beq_iff_eq] at h
            rw [h, hd] at hw₀
            cases hw₀
        simp [List.isPrefixOf, hbeq]
    | cons c r' =>
      by_cases hc : w₀ = c
      · subst hc
        cases w' with
        | nil =>
          cases r' with
          | nil => exact absurd rfl hne
          | cons e r'' =>
            have he : isWordChar e = true := hrc e (by simp)
            have htb : tailBound [w₀] (w₀ :: ((e :: r'') ++ t)) = false := by
              simp [tailBound, he]
            rw [show (w₀ :: e :: r'') ++ t = w₀ :: ((e :: r'') ++ t) from rfl,
              htb, Bool.and_false]
        | cons w₁ w'' =>
          have hrec := prefixFail t ht (w₁ :: w'') r' (by simp)
            (fun x hx => hwc x (by simp [hx]))
            (fun x hx => hrc x (by simp [hx]))
            (fun h => hne (by rw [h]))
          rw [show (w₀ :: r') ++ t = w₀ :: (r' ++ t) from rfl, tailBound_cons]
          show (((w₀ == w₀) && List.isPrefixOf (w₁ :: w'') (r' ++ t))
              && tailBound (w₁ :: w'') (r' ++ t)) = false
          rw [beq_self_eq_true, Bool.true_and]
          exact hrec
      · have hbeq : (w₀ == c) = false := by
          cases h : w₀ == c
          · rfl
          · rw [beq_iff_eq] at h
            exact absurd h hc
        rw [show (c :: r') ++ t = c :: (r' ++ t) from rfl]
        show (((w₀ == c) && List.isPrefixOf w' (r' ++ t))
            && tailBound (w₀ :: w') (c :: (r' ++ t))) = false
        rw [hbeq, Bool.false_and, Bool.false_and]

/-- Passing a whole word run that is not the pattern: the run is emitted
verbatim and scanning continues at the non-word tail. -/
theorem subWordGo_run_noMatch (w : List Char) (hw : w ≠ [])
    (hwc : ∀ c ∈ w, isWordChar c = true) (r : List Char) (hr : r ≠ [])
    (hrc : ∀ c ∈ r, isWordChar c = true) (t : List Char) (ht : headNotWord t)
    (hne : w ≠ r) (p : Option Char) (hp : wordBound p = true) :
    subWordGo w p 0 (r ++ t) = r ++ subWordGo w none 0 t := by
  cases r with
  | nil => exact absurd rfl hr
  | cons c r' =>
    have hfail := prefixFail t ht w (c :: r') hw hwc hrc hne
    rw [show (c :: r') ++ t = c :: (r' ++ t) from rfl] at hfail ⊢
    rw [subWordGo_zero_cons, hp, Bool.true_and, hfail]
    simp only [Bool.false_eq_true, if_false]
    show c :: subWordGo w (some c) 0 (r' ++ t) = c :: (r' ++ subWordGo w none 0 t)
    congr 1
    rw [subWordGo_run w r' t c (fun x hx => hrc x (by simp [hx])) (hrc c (by simp))]
    congr 1
    exact subWordGo_headNotWord w hw hwc t ht _ none

theorem isPrefixOf_append_self : ∀ (w t : List Char),
    List.isPrefixOf w (w ++ t) = true
  | [], t => by cases t <;> rfl
  | c :: w', t => by
    show ((c == c) && List.isPrefixOf w' (w' ++ t)) = true
    rw [beq_self_eq_true, Bool.true_and]
    exact isPrefixOf_append_self w' t

theorem tailBound_append_self (w t : List Char) (ht : headNotWord t) :
    tailBound w (w ++ t) = true := by
  unfold tailBound
  rw [List.drop_left]
  cases t with
  | nil => rfl
  | cons d t₂ =>
    have hd := ht d rfl
    simp [hd]

/-- Passing a word run equal to the pattern: the run is deleted and
scanning continues at the non-word tail. -/
theorem subWordGo_run_match (w : List Char) (hw : w ≠ [])
    (hwc : ∀ c ∈ w, isWordChar c = true) (t : List Char) (ht : headNotWord t)
    (p : Option Char) (hp : wordBound p = true) :
    subWordGo w p 0 (w ++ t) = subWordGo w none 0 t := by
  cases w with
  | nil => exact absurd rfl hw
  | cons c w' =>
    have h1 := isPrefixOf_append_self (c :: w') t
    have h2 := tailBound_append_self (c :: w') t ht
    rw [show (c :: w') ++ t = c :: (w' ++ t) from rfl] at h1 h2 ⊢
    rw [subWordGo_zero_cons, hp, Bool.true_and, h1, Bool.true_and, h2, if_pos rfl]
    rw [show (c :: w').length - 1 = w'.length from by simp]
    rw [subWordGo_skip (c :: w') w' (some c) t]
    exact subWordGo_headNotWord (c :: w') (by simp) hwc t ht _ none

theorem wordsOf_nil : wordsOf [] = [] := by
  simp [wordsOf]

theorem wordsOf_cons_word {c : Char} (rest : List Char) (h : isWordChar c = true) :
    wordsOf (c :: rest) =
      (c :: rest.takeWhile isWordChar) :: wordsOf (rest.dropWhile isWordChar) := by
  rw [wordsOf]
  simp [h]

theorem wordsOf_cons_nonword {c : Char} (rest : List Char) (h : isWordChar c = false) :
    wordsOf (c :: rest) = wordsOf rest := by
  rw [wordsOf]
  simp [h]

theorem takeWhile_append_of_all (p : Char → Bool) : ∀ (xs u : List Char),
    (∀ x ∈ xs, p x = true) → (xs ++ u).takeWhile p = xs ++ u.takeWhile p
  | [], _, _ => rfl
  | x :: xs, u, h => by
    have hx : p x = true := h x (by simp)
    rw [show (x :: xs) ++ u = x :: (xs ++ u) from rfl, List.takeWhile_cons, hx,
      if_pos rfl, takeWhile_append_of_all p xs u (fun y hy => h y (by simp [hy]))]
    rfl

theorem dropWhile_append_of_all (p : Char → Bool) : ∀ (xs u : List Char),
    (∀ x ∈ xs, p x = true) → (xs ++ u).dropWhile p = u.dropWhile p
  | [], _, _ => rfl
  | x :: xs, u, h => by
    have hx : p x = true := h x (by simp)
    rw [show (x :: xs) ++ u = x :: (xs ++ u) from rfl, List.dropWhile_cons, hx,
      if_pos rfl]
    exact dropWhile_append_of_all p xs u (fun y hy => h y (by simp [hy]))

theorem takeWhile_hnw (u : List Char) (h : headNotWord u) :
    u.takeWhile isWordChar = [] := by
  cases u with
  | nil => rfl
  | cons d t₂ =>
    rw [List.takeWhile_cons, h d rfl, if_neg (by simp)]

theorem dropWhile_hnw (u : List Char) (h : headNotWord u) :
    u.dropWhile isWordChar = u := by
  cases u with
  | nil => rfl
  | cons d t₂ =>
    rw [List.dropWhile_cons, h d rfl, if_neg (by simp)]

/-- The word runs of `r ++ u` when `r` is a full run and `u` starts at a
boundary. -/
theorem wordsOf_run_append (r u : List Char) (hr : r ≠ [])
    (hrc : ∀ c ∈ r, isWordChar c = true) (hu : headNotWord u) :
    wordsOf (r ++ u) = r :: wordsOf u := by
  cases r with
  | nil => exact absurd rfl hr
  | cons c r' =>
    rw [show (c :: r') ++ u = c :: (r' ++ u) from rfl,
      wordsOf_cons_word (r' ++ u) (hrc c (by simp)),
      takeWhile_append_of_all isWordChar r' u (fun y hy => hrc y (by simp [hy])),
      dropWhile_append_of_all isWordChar r' u (fun y hy => hrc y (by simp [hy])),
      takeWhile_hnw u hu, dropWhile_hnw u hu]
    simp

end Permit

namespace Permit

theorem mem_takeWhile_sub (p : Char → Bool) : ∀ (l : List Char) (c : Char),
    c ∈ l.takeWhile p → c ∈ l
  | [], _, h => absurd h (by simp)
  | d :: rest, c, h => by
    rw [List.takeWhile_cons] at h
    by_cases hd : p d = true
    · rw [if_pos hd] at h
      rcases List.mem_cons.mp h with h | h
      · simp [h]
      · exact List.mem_cons_of_mem d (mem_takeWhile_sub p rest c h)
    · rw [if_neg hd] at h
      exact absurd h (by simp)

theorem mem_dropWhile_sub (p : Char → Bool) : ∀ (l : List Char) (c : Char),
    c ∈ l.dropWhile p → c ∈ l
  | [], _, h => absurd h (by simp)
  | d :: rest, c, h => by
    rw [List.dropWhile_cons] at h
    by_cases hd : p d = true
    · rw [if_pos hd] at h
      exact List.mem_cons_of_mem d (mem_dropWhile_sub p rest c h)
    · rwa [if_neg hd] at h

theorem all_takeWhile (p : Char → Bool) : ∀ (l : List Char) (c : Char),
    c ∈ l.takeWhile p → p c = true
  | [], _, h => absurd h (by simp)
  | d :: rest, c, h => by
    rw [List.takeWhile_cons] at h
    by_cases hd : p d = true
    · rw [if_pos hd] at h
      rcases List.mem_cons.mp h with h | h
      · rwa [h]
      · exact all_takeWhile p rest c h
    · rw [if_neg hd] at h
      exact absurd h (by simp)

theorem hnw_dropWhile : ∀ (l : List Char), headNotWord (l.dropWhile isWordChar)
  | [] => headNotWord_nil
  | c :: rest => by
    rw [List.dropWhile_cons]
    by_cases hc : isWordChar c = true
    · rw [if_pos hc]
      exact hnw_dropWhile rest
    · rw [if_neg hc]
      simp only [Bool.not_eq_true] at hc
      exact headNotWord_cons rest hc

/-- A whitespace character is not a word character. -/
theorem wsNotWord (c : Char) (h : isPyWS c = true) : isWordChar c = false := by
  rcases (isPyWS_iff c).mp h with h | h | h | h | h | h <;>
    (cases hw : isWordChar c
     · rfl
     · exfalso
       rcases (isWordChar_iff c).mp hw with hx | hx | hx | hx <;> omega)

/-- The scanner preserves boundary-starts. -/
theorem subWordGo_hnw (w : List Char) (hw : w ≠ [])
    (hwc : ∀ c ∈ w, isWordChar c = true) (t : List Char) (ht : headNotWord t)
    (p : Option Char) : headNotWord (subWordGo w p 0 t) := by
  cases t with
  | nil =>
    rw [subWordGo_nil]
    exact headNotWord_nil
  | cons d t₂ =>
    have hd : isWordChar d = false := ht d rfl
    rw [subWordGo_cons_nonword w hw hwc t₂ hd p]
    exact headNotWord_cons _ hd

/-- Word-level description of one `\b`-bounded word substitution: it
deletes exactly the word runs equal to the pattern. -/
theorem subWordGo_words (w : List Char) (hw : w ≠ [])
    (hwc : ∀ c ∈ w, isWordChar c = true) : ∀ (n : Nat) (t : List Char),
    t.length ≤ n → ∀ (p : Option Char), wordBound p = true →
    wordsOf (subWordGo w p 0 t) = (wordsOf t).filter (fun r => !(r == w)) := by
  intro n
  induction n with
  | zero =>
    intro t hlen p _
    have ht : t = [] := List.eq_nil_of_length_eq_zero (Nat.le_zero.mp hlen)
    rw [ht, subWordGo_nil, wordsOf_nil]
    rfl
  | succ n ih =>
    intro t hlen p hp
    cases t with
    | nil =>
      rw [subWordGo_nil, wordsOf_nil]
      rfl
    | cons c t₂ =>
      by_cases hc : isWordChar c = true
      · have hdec : c :: t₂ = (c :: t₂.takeWhile isWordChar) ++ t₂.dropWhile isWordChar := by
          rw [List.cons_append, List.takeWhile_append_dropWhile]
        have hrne : (c :: t₂.takeWhile isWordChar) ≠ [] := by simp
        have hrw : ∀ x ∈ c :: t₂.takeWhile isWordChar, isWordChar x = true := by
          intro x hx
          rcases List.mem_cons.mp hx with hx | hx
          · rwa [hx]
          · exact all_takeWhile isWordChar t₂ x hx
        have hu : headNotWord (t₂.dropWhile isWordChar) := hnw_dropWhile t₂
        have hulen : (t₂.dropWhile isWordChar).length ≤ n := by
          have := length_dropWhile_le_self isWordChar t₂
          simp only [List.length_cons] at hlen
          omega
        by_cases heq : (c :: t₂.takeWhile isWordChar) = w
        · rw [hdec, heq, subWordGo_run_match w hw hwc _ hu p hp,
            wordsOf_run_append w _ (heq ▸ hrne) hwc hu,
            ih _ hulen none rfl]
          have : (w == w) = true := beq_self_eq_true w
          simp [List.filter_cons, this]
        · rw [hdec,
            subWordGo_run_noMatch w hw hwc _ hrne hrw _ hu (fun e => heq e.symm) p hp,
            wordsOf_run_append _ _ hrne hrw (subWordGo_hnw w hw hwc _ hu none),
            ih _ hulen none rfl,
            wordsOf_run_append _ _ hrne hrw hu]
          have hbne : ((c :: t₂.takeWhile isWordChar) == w) = false := by
            cases hb : (c :: t₂.takeWhile isWordChar) == w
            · rfl
            · exact absurd (beq_iff_eq.mp hb) heq
          simp [List.filter_cons, hbne]
      · simp only [Bool.not_eq_true] at hc
        have hp₂ : wordBound (some c) = true := by simp [wordBound, hc]
        have hlen₂ : t₂.length ≤ n := by
          simp only [List.length_cons] at hlen
          omega
        rw [subWordGo_cons_nonword w hw hwc t₂ hc p, wordsOf_cons_nonword _ hc,
          wordsOf_cons_nonword _ hc, ih t₂ hlen₂ (some c) hp₂]

/-- Word-level description of `subWord` for a nonempty word pattern. -/
theorem subWord_words (w t : List Char) (hw : w ≠ [])
    (hwc : ∀ c ∈ w, isWordChar c = true) :
    wordsOf (subWord w t) = (wordsOf t).filter (fun r => !(r == w)) := by
  rw [subWord, if_neg hw]
  exact subWordGo_words w hw hwc t.length t (Nat.le_refl _) none rfl

/-- When no word run equals the pattern, the scanner is the identity. -/
theorem subWordGo_id (w : List Char) (hw : w ≠ [])
    (hwc : ∀ c ∈ w, isWordChar c = true) : ∀ (n : Nat) (t : List Char),
    t.length ≤ n → ∀ (p : Option Char), wordBound p = true →
    (∀ r ∈ wordsOf t, r ≠ w) → subWordGo w p 0 t = t := by
  intro n
  induction n with
  | zero =>
    intro t hlen p _ _
    have ht : t = [] := List.eq_nil_of_length_eq_zero (Nat.le_zero.mp hlen)
    rw [ht, subWordGo_nil]
  | succ n ih =>
    intro t hlen p hp hr
    cases t with
    | nil => rw [subWordGo_nil]
    | cons c t₂ =>
      by_cases hc : isWordChar c = true
      · have hdec : c :: t₂ = (c :: t₂.takeWhile isWordChar) ++ t₂.dropWhile isWordChar := by
          rw [List.cons_append, List.takeWhile_append_dropWhile]
        have hrne : (c :: t₂.takeWhile isWordChar) ≠ [] := by simp
        have hrw : ∀ x ∈ c :: t₂.takeWhile isWordChar, isWordChar x = true := by
          intro x hx
          rcases List.mem_cons.mp hx with hx | hx
          · rwa [hx]
          · exact all_takeWhile isWordChar t₂ x hx
        have hu : headNotWord (t₂.dropWhile isWordChar) := hnw_dropWhile t₂
        have hulen : (t₂.dropWhile isWordChar).length ≤ n := by
          have := length_dropWhile_le_self isWordChar t₂
          simp only [List.length_cons] at hlen
          omega
        have hwords : wordsOf (c :: t₂) =
            (c :: t₂.takeWhile isWordChar) :: wordsOf (t₂.dropWhile isWordChar) :=
          wordsOf_cons_word t₂ hc
        have hne : w ≠ (c :: t₂.takeWhile isWordChar) :=
          fun e => hr _ (hwords ▸ List.mem_cons_self _ _) e.symm
        rw [hdec, subWordGo_run_noMatch w hw hwc _ hrne hrw _ hu hne p hp,
          ih _ hulen none rfl (fun r hrm => hr r (hwords ▸ List.mem_cons_of_mem _ hrm))]
      · simp only [Bool.not_eq_true] at hc
        have hp₂ : wordBound (some c) = true := by simp [wordBound, hc]
        have hlen₂ : t₂.length ≤ n := by
          simp only [List.length_cons] at hlen
          omega
        rw [subWordGo_cons_nonword w hw hwc t₂ hc p,
          ih t₂ hlen₂ (some c) hp₂
            (fun r hrm => hr r ((wordsOf_cons_nonword t₂ hc) ▸ hrm))]

theorem subWord_id (w t : List Char) (hw : w ≠ [])
    (hwc : ∀ c ∈ w, isWordChar c = true) (hr : ∀ r ∈ wordsOf t, r ≠ w) :
    subWord w t = t := by
  rw [subWord, if_neg hw]
  exact subWordGo_id w hw hwc t.length t (Nat.le_refl _) none rfl hr

/-- Every word run is nonempty, all-word-char, and made of characters
of the string. -/
theorem wordsOf_props : ∀ (n : Nat) (t : List Char), t.length ≤ n →
    ∀ r ∈ wordsOf t,
      r ≠ [] ∧ (∀ c ∈ r, isWordChar c = true) ∧ (∀ c ∈ r, c ∈ t) := by
  intro n
  induction n with
  | zero =>
    intro t hlen r hr
    have ht : t = [] := List.eq_nil_of_length_eq_zero (Nat.le_zero.mp hlen)
    rw [ht, wordsOf_nil] at hr
    exact absurd hr (by simp)
  | succ n ih =>
    intro t hlen r hr
    cases t with
    | nil =>
      rw [wordsOf_nil] at hr
      exact absurd hr (by simp)
    | cons c t₂ =>
      by_cases hc : isWordChar c = true
      · rw [wordsOf_cons_word t₂ hc] at hr
        have hulen : (t₂.dropWhile isWordChar).length ≤ n := by
          have := length_dropWhile_le_self isWordChar t₂
          simp only [List.length_cons] at hlen
          omega
        rcases List.mem_cons.mp hr with hr | hr
        · refine ⟨by simp [hr], ?_, ?_⟩
          · intro x hx
            rw [hr] at hx
            rcases List.mem_cons.mp hx with hx | hx
            · rwa [hx]
            · exact all_takeWhile isWordChar t₂ x hx
          · intro x hx
            rw [hr] at hx
            rcases List.mem_cons.mp hx with hx | hx
            · simp [hx]
            · exact List.mem_cons_of_mem c (mem_takeWhile_sub isWordChar t₂ x hx)
        · obtain ⟨h1, h2, h3⟩ := ih _ hulen r hr
          exact ⟨h1, h2, fun x hx =>
            List.mem_cons_of_mem c (mem_dropWhile_sub isWordChar t₂ x (h3 x hx))⟩
      · simp only [Bool.not_eq_true] at hc
        rw [wordsOf_cons_nonword t₂ hc] at hr
        have hlen₂ : t₂.length ≤ n := by
          simp only [List.length_cons] at hlen
          omega
        obtain ⟨h1, h2, h3⟩ := ih t₂ hlen₂ r hr
        exact ⟨h1, h2, fun x hx => List.mem_cons_of_mem c (h3 x hx)⟩

end Permit

namespace Permit

theorem collapseWS_cons_nonws {x : Char} (rest : List Char) (h : isPyWS x = false) :
    collapseWS (x :: rest) = x :: collapseWS rest := by
  cases rest with
  | nil => simp [collapseWS, h]
  | cons d r => simp [collapseWS, h]

theorem collapseWS_append_run : ∀ (r u : List Char),
    (∀ x ∈ r, isPyWS x = false) → collapseWS (r ++ u) = r ++ collapseWS u
  | [], _, _ => rfl
  | x :: r', u, h => by
    rw [show (x :: r') ++ u = x :: (r' ++ u) from rfl,
      collapseWS_cons_nonws _ (h x (by simp)),
      collapseWS_append_run r' u (fun y hy => h y (by simp [hy]))]
    rfl

theorem dropTrailWS_append_nonws : ∀ (r z : List Char),
    (∀ c ∈ r, isPyWS c = false) → dropTrailWS (r ++ z) = r ++ dropTrailWS z
  | [], _, _ => rfl
  | c :: r', z, h => by
    have hc : isPyWS c = false := h c (by simp)
    rw [show (c :: r') ++ z = c :: (r' ++ z) from rfl]
    show (if (dropTrailWS (r' ++ z) = []) && isPyWS c then []
      else c :: dropTrailWS (r' ++ z)) = (c :: r') ++ dropTrailWS z
    rw [hc, Bool.and_false]
    simp only [Bool.false_eq_true, if_false]
    rw [dropTrailWS_append_nonws r' z (fun x hx => h x (by simp [hx]))]
    rfl

theorem joinWords_cons_ne_nil (r : List Char) (L : List (List Char)) (hr : r ≠ []) :
    joinWords (r :: L) ≠ [] := by
  cases L with
  | nil => simpa [joinWords] using hr
  | cons r₂ L' =>
    cases r with
    | nil => exact absurd rfl hr
    | cons x r' => simp [joinWords]

/-- After collapsing whitespace and stripping, a word-or-whitespace
string is exactly its words joined by single spaces; and with the strip
only on the right, a boundary-started string keeps one leading space
when it has any word at all. -/
theorem normShape : ∀ (n : Nat) (t : List Char), t.length ≤ n →
    (∀ c ∈ t, (isWordChar c || isPyWS c) = true) →
    stripL (collapseWS t) = joinWords (wordsOf t) ∧
    (headNotWord t →
      dropTrailWS (collapseWS t) =
        if wordsOf t = [] then [] else ' ' :: joinWords (wordsOf t)) := by
  intro n
  induction n with
  | zero =>
    intro t hlen _
    have ht : t = [] := List.eq_nil_of_length_eq_zero (Nat.le_zero.mp hlen)
    subst ht
    refine ⟨by rw [wordsOf_nil]; rfl, fun _ => by rw [wordsOf_nil, if_pos rfl]; rfl⟩
  | succ n ih =>
    intro t hlen hcs
    cases t with
    | nil =>
      refine ⟨by rw [wordsOf_nil]; rfl, fun _ => by rw [wordsOf_nil, if_pos rfl]; rfl⟩
    | cons c t₂ =>
      by_cases hc : isWordChar c = true
      · have hcns : isPyWS c = false := wordNotWS c hc
        have hdec : c :: t₂ = (c :: t₂.takeWhile isWordChar) ++ t₂.dropWhile isWordChar := by
          rw [List.cons_append, List.takeWhile_append_dropWhile]
        have hrw : ∀ x ∈ c :: t₂.takeWhile isWordChar, isWordChar x = true := by
          intro x hx
          rcases List.mem_cons.mp hx with hx | hx
          · rwa [hx]
          · exact all_takeWhile isWordChar t₂ x hx
        have hrnws : ∀ x ∈ c :: t₂.takeWhile isWordChar, isPyWS x = false :=
          fun x hx => wordNotWS x (hrw x hx)
        have hu : headNotWord (t₂.dropWhile isWordChar) := hnw_dropWhile t₂
        have hulen : (t₂.dropWhile isWordChar).length ≤ n := by
          have := length_dropWhile_le_self isWordChar t₂
          simp only [List.length_cons] at hlen
          omega
        have hucs : ∀ x ∈ t₂.dropWhile isWordChar, (isWordChar x || isPyWS x) = true :=
          fun x hx => hcs x (List.mem_cons_of_mem c (mem_dropWhile_sub isWordChar t₂ x hx))
        have hB := (ih _ hulen hucs).2 hu
        refine ⟨?_, fun hB₂ => by simp [hB₂ c rfl] at hc⟩
        rw [hdec, collapseWS_append_run _ _ hrnws]
        unfold stripL
        rw [show (c :: t₂.takeWhile isWordChar) ++ collapseWS (t₂.dropWhile isWordChar)
            = c :: (t₂.takeWhile isWordChar ++ collapseWS (t₂.dropWhile isWordChar)) from rfl,
          List.dropWhile_cons, hcns]
        rw [if_neg (by simp)]
        rw [show c :: (t₂.takeWhile isWordChar ++ collapseWS (t₂.dropWhile isWordChar))
            = (c :: t₂.takeWhile isWordChar) ++ collapseWS (t₂.dropWhile isWordChar) from rfl,
          dropTrailWS_append_nonws _ _ hrnws, hB,
          wordsOf_run_append (c :: t₂.takeWhile isWordChar) (t₂.dropWhile isWordChar)
            (by simp) hrw hu]
        by_cases hwu : wordsOf (t₂.dropWhile isWordChar) = []
        · rw [if_pos hwu, hwu]
          simp [joinWords]
        · rw [if_neg hwu]
          cases hLu : wordsOf (t₂.dropWhile isWordChar) with
          | nil => exact absurd hLu hwu
          | cons L₀ L' => simp [joinWords]
      · simp only [Bool.not_eq_true] at hc
        have hcws : isPyWS c = true := by
          have := hcs c (by simp)
          rw [hc] at this
          simpa using this
        have hlen₂ : t₂.length ≤ n := by
          simp only [List.length_cons] at hlen
          omega
        have hcs₂ : ∀ x ∈ t₂, (isWordChar x || isPyWS x) = true :=
          fun x hx => hcs x (List.mem_cons_of_mem c hx)
        have hA₂ := (ih t₂ hlen₂ hcs₂).1
        have hwEq : wordsOf (c :: t₂) = wordsOf t₂ := wordsOf_cons_nonword t₂ hc
        constructor
        · rw [hwEq, ← hA₂]
          cases t₂ with
          | nil =>
            rw [show collapseWS [c] = [' '] from by simp [collapseWS, hcws],
              show collapseWS ([] : List Char) = [] from rfl]
            decide
          | cons d r =>
            by_cases hd : isPyWS d = true
            · rw [show collapseWS (c :: d :: r) = collapseWS (d :: r) from by
                simp [collapseWS, hcws, hd]]
            · simp only [Bool.not_eq_true] at hd
              rw [show collapseWS (c :: d :: r) = ' ' :: collapseWS (d :: r) from by
                simp [collapseWS, hcws, hd]]
              unfold stripL
              rw [List.dropWhile_cons, if_pos (by decide)]
        · intro _
          cases t₂ with
          | nil =>
            rw [hwEq, wordsOf_nil, if_pos rfl,
              show collapseWS [c] = [' '] from by simp [collapseWS, hcws]]
            decide
          | cons d r =>
            by_cases hd : isPyWS d = true
            · have hB₂ := (ih (d :: r) hlen₂ hcs₂).2 (headNotWord_cons r (wsNotWord d hd))
              rw [hwEq, show collapseWS (c :: d :: r) = collapseWS (d :: r) from by
                simp [collapseWS, hcws, hd]]
              exact hB₂
            · simp only [Bool.not_eq_true] at hd
              have hdw : isWordChar d = true := by
                have := hcs₂ d (by simp)
                rw [hd] at this
                simpa using this
              rw [show collapseWS (c :: d :: r) = ' ' :: collapseWS (d :: r) from by
                simp [collapseWS, hcws, hd]]
              have hz1 : collapseWS (d :: r) = d :: collapseWS r := collapseWS_cons_nonws r hd
              have hz : dropTrailWS (collapseWS (d :: r)) = joinWords (wordsOf (d :: r)) := by
                rw [hz1]
                rw [hz1] at hA₂
                unfold stripL at hA₂
                rw [List.dropWhile_cons, if_neg (by simp [hd])] at hA₂
                exact hA₂
              have hne : joinWords (wordsOf (d :: r)) ≠ [] := by
                rw [wordsOf_cons_word r hdw]
                exact joinWords_cons_ne_nil _ _ (by simp)
              have hwne : wordsOf (d :: r) ≠ [] := by
                rw [wordsOf_cons_word r hdw]
                simp
              rw [show dropTrailWS (' ' :: collapseWS (d :: r)) =
                  if (dropTrailWS (collapseWS (d :: r)) = []) && isPyWS ' ' then []
                  else ' ' :: dropTrailWS (collapseWS (d :: r)) from rfl,
                hz, hwEq]
              rw [if_neg (by
                intro hcontra
                rw [Bool.and_eq_true, decide_eq_true_eq] at hcontra
                exact hne hcontra.1)]
              rw [if_neg hwne]

end Permit

namespace Permit

theorem wordsOf_joinWords : ∀ (L : List (List Char)),
    (∀ r ∈ L, r ≠ [] ∧ ∀ c ∈ r, isWordChar c = true) →
    wordsOf (joinWords L) = L
  | [], _ => by rw [show joinWords [] = [] from rfl, wordsOf_nil]
  | [r], h => by
    have h1 := (h r (by simp)).1
    have h2 := (h r (by simp)).2
    have hrun : wordsOf (r ++ []) = r :: wordsOf [] :=
      wordsOf_run_append r [] h1 h2 headNotWord_nil
    rw [List.append_nil] at hrun
    rw [show joinWords [r] = r from rfl, hrun, wordsOf_nil]
  | r :: r₂ :: L', h => by
    have h1 := (h r (by simp)).1
    have h2 := (h r (by simp)).2
    rw [show joinWords (r :: r₂ :: L') = r ++ ' ' :: joinWords (r₂ :: L') from rfl,
      wordsOf_run_append r _ h1 h2 (headNotWord_cons _ (by decide)),
      wordsOf_cons_nonword _ (by decide : isWordChar ' ' = false),
      wordsOf_joinWords (r₂ :: L') (fun x hx => h x (List.mem_cons_of_mem r hx))]

theorem dropTrailWS_joinWords : ∀ (L : List (List Char)),
    (∀ r ∈ L, r ≠ [] ∧ ∀ c ∈ r, isWordChar c = true) →
    dropTrailWS (joinWords L) = joinWords L
  | [], _ => rfl
  | [r], h => by
    have hnws : ∀ c ∈ r, isPyWS c = false :=
      fun c hc => wordNotWS c ((h r (by simp)).2 c hc)
    have := dropTrailWS_append_nonws r [] hnws
    rw [show dropTrailWS [] = [] from rfl, List.append_nil] at this
    exact this
  | r :: r₂ :: L', h => by
    have ihr := dropTrailWS_joinWords (r₂ :: L')
      (fun x hx => h x (List.mem_cons_of_mem r hx))
    have hne : joinWords (r₂ :: L') ≠ [] :=
      joinWords_cons_ne_nil r₂ L' (h r₂ (by simp)).1
    show dropTrailWS (r ++ ' ' :: joinWords (r₂ :: L')) = r ++ ' ' :: joinWords (r₂ :: L')
    rw [dropTrailWS_append_nonws r _ (fun c hc => wordNotWS c ((h r (by simp)).2 c hc))]
    congr 1
    show (if (dropTrailWS (joinWords (r₂ :: L')) = []) && isPyWS ' ' then []
      else ' ' :: dropTrailWS (joinWords (r₂ :: L'))) = ' ' :: joinWords (r₂ :: L')
    rw [ihr, if_neg (by
      intro hcontra
      rw [Bool.and_eq_true, decide_eq_true_eq] at hcontra
      exact hne hcontra.1)]

theorem dropWhile_nonws_head (x : Char) (z : List Char) (hx : isPyWS x = false) :
    List.dropWhile isPyWS (x :: z) = x :: z := by
  rw [List.dropWhile_cons, if_neg (by simp [hx])]

theorem stripL_joinWords (L : List (List Char))
    (h : ∀ r ∈ L, r ≠ [] ∧ ∀ c ∈ r, isWordChar c = true) :
    stripL (joinWords L) = joinWords L := by
  have hd := dropTrailWS_joinWords L h
  cases L with
  | nil => rfl
  | cons r L' =>
    obtain ⟨x, r', rfl⟩ : ∃ x r', r = x :: r' := by
      cases r with
      | nil => exact absurd rfl (h [] (by simp)).1
      | cons x r' => exact ⟨x, r', rfl⟩
    have hx : isPyWS x = false :=
      wordNotWS x ((h (x :: r') (List.mem_cons_self _ _)).2 x (by simp))
    unfold stripL
    cases L' with
    | nil =>
      rw [show joinWords [x :: r'] = x :: r' from rfl] at hd ⊢
      rw [dropWhile_nonws_head x r' hx]
      exact hd
    | cons r₂ L'' =>
      rw [show joinWords ((x :: r') :: r₂ :: L'')
          = x :: (r' ++ ' ' :: joinWords (r₂ :: L'')) from rfl] at hd ⊢
      rw [dropWhile_nonws_head _ _ hx]
      exact hd

theorem mem_joinWords : ∀ (L : List (List Char)) (c : Char),
    c ∈ joinWords L → c = ' ' ∨ ∃ r ∈ L, c ∈ r
  | [], c, h => absurd h (by simp [joinWords])
  | [r], c, h => Or.inr ⟨r, by simp, h⟩
  | r :: r₂ :: L', c, h => by
    rw [show joinWords (r :: r₂ :: L') = r ++ ' ' :: joinWords (r₂ :: L') from rfl] at h
    rcases List.mem_append.mp h with h | h
    · exact Or.inr ⟨r, by simp, h⟩
    · rcases List.mem_cons.mp h with h | h
      · exact Or.inl h
      · rcases mem_joinWords (r₂ :: L') c h with h | ⟨r₀, hr₀, hc⟩
        · exact Or.inl h
        · exact Or.inr ⟨r₀, List.mem_cons_of_mem r hr₀, hc⟩

theorem lowerL_id : ∀ (t : List Char), (∀ c ∈ t, c.toLower = c) → lowerL t = t
  | [], _ => rfl
  | c :: rest, h => by
    show c.toLower :: List.map Char.toLower rest = c :: rest
    rw [h c (by simp)]
    have := lowerL_id rest (fun x hx => h x (List.mem_cons_of_mem c hx))
    unfold lowerL at this
    rw [this]

theorem filter_all (p : Char → Bool) : ∀ (l : List Char),
    (∀ c ∈ l, p c = true) → l.filter p = l
  | [], _ => rfl
  | c :: rest, h => by
    rw [List.filter_cons, if_pos (h c (by simp)),
      filter_all p rest (fun x hx => h x (List.mem_cons_of_mem c hx))]

theorem wordsOf_foldl_subWord : ∀ (ws : List (List Char)) (t : List Char),
    (∀ w ∈ ws, w ≠ [] ∧ ∀ c ∈ w, isWordChar c = true) →
    wordsOf (ws.foldl (fun acc w => subWord w acc) t) =
      ws.foldl (fun L w => L.filter (fun r => !(r == w))) (wordsOf t)
  | [], _, _ => rfl
  | w :: ws', t, h => by
    rw [List.foldl_cons, List.foldl_cons,
      wordsOf_foldl_subWord ws' (subWord w t) (fun x hx => h x (List.mem_cons_of_mem w hx)),
      subWord_words w t (h w (by simp)).1 (h w (by simp)).2]

theorem mem_filter_foldl_sub : ∀ (ws L : List (List Char)) (r : List Char),
    r ∈ ws.foldl (fun L w => L.filter (fun x => !(x == w))) L → r ∈ L
  | [], _, _, h => h
  | w :: ws', L, r, h => by
    rw [List.foldl_cons] at h
    exact List.mem_of_mem_filter (mem_filter_foldl_sub ws' _ r h)

theorem mem_filter_foldl_ne : ∀ (ws L : List (List Char)) (r : List Char),
    r ∈ ws.foldl (fun L w => L.filter (fun x => !(x == w))) L → ∀ w ∈ ws, r ≠ w
  | [], _, _, _, w, hw => absurd hw (by simp)
  | w₁ :: ws', L, r, h, w, hw => by
    rw [List.foldl_cons] at h
    rcases List.mem_cons.mp hw with hw | hw
    · subst hw
      have hmem := mem_filter_foldl_sub ws' _ r h
      have hbeq : (r == w) = false := by simpa using List.of_mem_filter hmem
      exact beq_eq_false_iff_ne.mp hbeq
    · exact mem_filter_foldl_ne ws' _ r h w hw

theorem SUFFIXES_props : ∀ w ∈ SUFFIXES, w ≠ [] ∧ ∀ c ∈ w, isWordChar c = true := by
  decide

theorem wordsOf_removeSuffixWords (t : List Char) :
    wordsOf (removeSuffixWords t) =
      SUFFIXES.foldl (fun L w => L.filter (fun r => !(r == w))) (wordsOf t) :=
  wordsOf_foldl_subWord SUFFIXES t SUFFIXES_props

theorem removeSuffixWords_avoid (t : List Char) :
    ∀ r ∈ wordsOf (removeSuffixWords t), ∀ w ∈ SUFFIXES, r ≠ w := by
  intro r hr
  rw [wordsOf_removeSuffixWords] at hr
  exact mem_filter_foldl_ne SUFFIXES (wordsOf t) r hr

theorem foldl_subWord_id : ∀ (ws : List (List Char)) (t : List Char),
    (∀ w ∈ ws, w ≠ [] ∧ ∀ c ∈ w, isWordChar c = true) →
    (∀ r ∈ wordsOf t, ∀ w ∈ ws, r ≠ w) →
    ws.foldl (fun acc w => subWord w acc) t = t
  | [], _, _, _ => rfl
  | w :: ws', t, hp, h => by
    rw [List.foldl_cons,
      subWord_id w t (hp w (by simp)).1 (hp w (by simp)).2
        (fun r hr => h r hr w (by simp)),
      foldl_subWord_id ws' t (fun x hx => hp x (List.mem_cons_of_mem w hx))
        (fun r hr w₂ hw₂ => h r hr w₂ (List.mem_cons_of_mem w hw₂))]

theorem removeSuffixWords_id (t : List Char)
    (h : ∀ r ∈ wordsOf t, ∀ w ∈ SUFFIXES, r ≠ w) : removeSuffixWords t = t :=
  foldl_subWord_id SUFFIXES t SUFFIXES_props h

theorem subWord_sublist (w t : List Char) : List.Sublist (subWord w t) t := by
  unfold subWord
  split
  · exact List.Sublist.refl t
  · exact subWordGo_sublist w none 0 t

theorem foldl_subWord_sublist : ∀ (ws : List (List Char)) (t : List Char),
    List.Sublist (ws.foldl (fun acc w => subWord w acc) t) t
  | [], t => List.Sublist.refl t
  | w :: ws', t => by
    rw [List.foldl_cons]
    exact (foldl_subWord_sublist ws' (subWord w t)).trans (subWord_sublist w t)

theorem removeSuffixWords_sublist (t : List Char) :
    List.Sublist (removeSuffixWords t) t :=
  foldl_subWord_sublist SUFFIXES t

theorem dropTrailWS_sublist : ∀ (t : List Char), List.Sublist (dropTrailWS t) t
  | [] => List.Sublist.refl []
  | c :: rest => by
    show List.Sublist
      (if (dropTrailWS rest = []) && isPyWS c then [] else c :: dropTrailWS rest)
      (c :: rest)
    split
    · exact List.nil_sublist _
    · exact .cons₂ c (dropTrailWS_sublist rest)

theorem dropWhile_sublist_self (p : Char → Bool) :
    ∀ (t : List Char), List.Sublist (t.dropWhile p) t
  | [] => List.Sublist.refl []
  | c :: rest => by
    rw [List.dropWhile_cons]
    split
    · exact .cons c (dropWhile_sublist_self p rest)
    · exact List.Sublist.refl _

theorem stripL_sublist (t : List Char) : List.Sublist (stripL t) t :=
  (dropTrailWS_sublist _).trans (dropWhile_sublist_self isPyWS t)

theorem keepPred_toLower (c : Char) (h : (c.isAlphanum || isPyWS c) = true) :
    ((('a' ≤ c.toLower && c.toLower ≤ 'z') || c.toLower.isDigit || isPyWS c.toLower)
      = true) := by
  rcases Bool.or_eq_true_iff.mp h with h | h
  · rcases (isAlphanum_iff c).mp h with h | h | h
    · rw [toLowerFix c (by omega)]
      exact (keepPred_iff c).mpr (Or.inr (Or.inl h))
    · have hup := toLowerUpper c h
      exact (keepPred_iff c.toLower).mpr (Or.inl (by omega))
    · rw [toLowerFix c (by omega)]
      exact (keepPred_iff c).mpr (Or.inl h)
  · have hws := (isPyWS_iff c).mp h
    rw [toLowerFix c (by rcases hws with h | h | h | h | h | h <;> omega)]
    exact (keepPred_iff c).mpr (Or.inr (Or.inr hws))

theorem keepPred_wordOrWS (c : Char)
    (h : ((('a' ≤ c && c ≤ 'z') || c.isDigit || isPyWS c)) = true) :
    (isWordChar c || isPyWS c) = true := by
  rcases (keepPred_iff c).mp h with h | h | h
  · exact Bool.or_eq_true_iff.mpr (Or.inl ((isWordChar_iff c).mpr (Or.inr (Or.inr (Or.inl h)))))
  · exact Bool.or_eq_true_iff.mpr (Or.inl ((isWordChar_iff c).mpr (Or.inl h)))
  · exact Bool.or_eq_true_iff.mpr (Or.inr ((isPyWS_iff c).mpr h))

theorem toLower_fix_of_keep_word (c : Char)
    (hq : ((('a' ≤ c && c ≤ 'z') || c.isDigit || isPyWS c)) = true)
    (hw : isWordChar c = true) : c.toLower = c := by
  rcases (keepPred_iff c).mp hq with h | h | h
  · exact toLowerFix c (by omega)
  · exact toLowerFix c (by omega)
  · rw [wsNotWord c ((isPyWS_iff c).mpr h)] at hw
    cases hw

end Permit

namespace Permit

/-- Idempotence of `normalizeNameL` on input made of alphanumeric and
whitespace characters only.  (On general input the claim fails: removing
punctuation can glue letters into a new generic-suffix word that only
the second pass deletes.) -/
theorem normalizeNameL_idem (s : List Char)
    (h : ∀ c ∈ s, (c.isAlphanum || isPyWS c) = true) :
    normalizeNameL (normalizeNameL s) = normalizeNameL s := by
  by_cases hs : s = []
  · subst hs
    rfl
  · have hkeep₁ : ∀ c ∈ stripL (lowerL s),
        ((('a' ≤ c && c ≤ 'z') || c.isDigit || isPyWS c)) = true := by
      intro c hc
      have hc' : c ∈ lowerL s := (stripL_sublist (lowerL s)).subset hc
      obtain ⟨d, hd, rfl⟩ := List.mem_map.mp hc'
      exact keepPred_toLower d (h d hd)
    have hkeep₂ : ∀ c ∈ removeSuffixWords (stripL (lowerL s)),
        ((('a' ≤ c && c ≤ 'z') || c.isDigit || isPyWS c)) = true :=
      fun c hc => hkeep₁ c ((removeSuffixWords_sublist _).subset hc)
    have hkeepEq : keepAlnumWS (removeSuffixWords (stripL (lowerL s)))
        = removeSuffixWords (stripL (lowerL s)) :=
      filter_all _ _ hkeep₂
    have hcs : ∀ c ∈ removeSuffixWords (stripL (lowerL s)),
        (isWordChar c || isPyWS c) = true :=
      fun c hc => keepPred_wordOrWS c (hkeep₂ c hc)
    have hN : normalizeNameL s =
        joinWords (wordsOf (removeSuffixWords (stripL (lowerL s)))) := by
      unfold normalizeNameL
      rw [if_neg hs, hkeepEq]
      exact (normShape _ _ (Nat.le_refl _) hcs).1
    have hprops : ∀ r ∈ wordsOf (removeSuffixWords (stripL (lowerL s))),
        r ≠ [] ∧ ∀ c ∈ r, isWordChar c = true := by
      intro r hr
      obtain ⟨h1, h2, _⟩ := wordsOf_props _ _ (Nat.le_refl _) r hr
      exact ⟨h1, h2⟩
    have hrkeep : ∀ r ∈ wordsOf (removeSuffixWords (stripL (lowerL s))),
        ∀ c ∈ r, ((('a' ≤ c && c ≤ 'z') || c.isDigit || isPyWS c)) = true := by
      intro r hr c hc
      obtain ⟨_, _, h3⟩ := wordsOf_props _ _ (Nat.le_refl _) r hr
      exact hkeep₂ c (h3 c hc)
    have havoid := removeSuffixWords_avoid (stripL (lowerL s))
    rw [hN]
    generalize hL : wordsOf (removeSuffixWords (stripL (lowerL s))) = L
      at hprops hrkeep havoid ⊢
    by_cases hLnil : joinWords L = []
    · rw [hLnil]
      rfl
    · have hchars : ∀ c ∈ joinWords L,
          ((('a' ≤ c && c ≤ 'z') || c.isDigit || isPyWS c)) = true := by
        intro c hc
        rcases mem_joinWords L c hc with rfl | ⟨r, hr, hcr⟩
        · decide
        · exact hrkeep r hr c hcr
      have hlower : lowerL (joinWords L) = joinWords L := by
        apply lowerL_id
        intro c hc
        rcases mem_joinWords L c hc with rfl | ⟨r, hr, hcr⟩
        · exact toLowerFix ' ' (by decide)
        · exact toLower_fix_of_keep_word c (hrkeep r hr c hcr)
            ((hprops r hr).2 c hcr)
      have hstrip : stripL (joinWords L) = joinWords L := stripL_joinWords L hprops
      have hWL : wordsOf (joinWords L) = L := wordsOf_joinWords L hprops
      have hrem : removeSuffixWords (joinWords L) = joinWords L := by
        apply removeSuffixWords_id
        rw [hWL]
        exact havoid
      have hkeepN : keepAlnumWS (joinWords L) = joinWords L :=
        filter_all _ _ hchars
      have hcsN : ∀ c ∈ joinWords L, (isWordChar c || isPyWS c) = true :=
        fun c hc => keepPred_wordOrWS c (hchars c hc)
      unfold normalizeNameL
      rw [if_neg hLnil, hlower, hstrip, hrem, hkeepN,
        (normShape _ _ (Nat.le_refl _) hcsN).1, hWL]

set_option maxRecDepth 10000 in
/-- C5, counterexample: `_normalize_name` is NOT idempotent.  On
"f.arm" the first pass removes the dot (no suffix word matches
word-boundedly), gluing the letters into "farm"; the second pass then
deletes "farm" as a generic suffix word, giving the empty string. -/
theorem C5_counterexample :
    normalize_name (normalize_name "f.arm") ≠ normalize_name "f.arm" := by
  decide

/-- C5 (amended): for every name made only of alphanumeric and
whitespace characters, `_normalize_name` is idempotent: applying it to
its own output returns that output unchanged. -/
theorem C5_normalize_idempotent_amended (s : String)
    (h : ∀ c ∈ s.data, (c.isAlphanum || isPyWS c) = true) :
    normalize_name (normalize_name s) = normalize_name s := by
  unfold normalize_name
  exact congrArg String.mk (normalizeNameL_idem s.data h)

theorem C5_witness :
    (∀ c ∈ ("Juan Cruz Trading").data, (c.isAlphanum || isPyWS c) = true) ∧
    normalize_name (normalize_name "Juan Cruz Trading")
      = normalize_name "Juan Cruz Trading" :=
  ⟨by decide, C5_normalize_idempotent_amended "Juan Cruz Trading" (by decide)⟩

end Permit
